import Mathlib

/-!
Shallow embedding of `src/flapy/main.py` (a Flappy-Bird-style game) and
verification of its specification claims.

Modelling conventions:
* Python floats are modelled as exact rationals (`ℚ`).
* `math.sqrt`-based comparisons are encoded by their exact real
  characterisation and proved equivalent to the `Real.sqrt` formulation.
* `pygame` surfaces are external assets: an obstacle's collider list is a
  parameter of the `Game` state (`assets`), and the alpha-mask collider
  derivation of `Obstacle.__init__` is modelled separately on explicit
  boolean masks (`collidersOf`).
* `exit(1)` on collision is modelled by `Except ℕ Game` with error value 1.
-/

namespace Flapy

/-- A collision circle `(x, y, radius)`, as used throughout `main.py`. -/
structure Circle where
  x : ℚ
  y : ℚ
  r : ℚ
deriving DecidableEq, Repr

/-- Embeds `check_circle_collision` (main.py lines 27-34).  The source computes
`dist = math.sqrt(dx*dx + dy*dy)` and returns `dist < c0[2] + c1[2]`.  Since
`Real.sqrt` is not computable, the comparison is encoded by its exact
characterisation `0 < s ∧ dx*dx + dy*dy < s*s` (for `s` the radius sum);
`check_circle_collision_iff` proves this equal to the `sqrt` comparison. -/
def check_circle_collision (c0 c1 : Circle) : Bool :=
  decide (0 < c0.r + c1.r ∧
    (c1.x - c0.x) * (c1.x - c0.x) + (c1.y - c0.y) * (c1.y - c0.y) <
      (c0.r + c1.r) * (c0.r + c1.r))

/-- Embeds the `Background` entity (main.py lines 132-150); `width` comes from
the loaded image and is kept as a parameter. -/
structure Background where
  width : ℚ
  scroll_speed : ℚ
  x : ℚ
deriving DecidableEq, Repr

/-- Embeds `Background.update` (main.py lines 143-146): scroll left by
`scroll_speed * dt`, and if `x <= -width` wrap once by adding `width`. -/
def Background.update (b : Background) (dt : ℚ) : Background :=
  if b.x - b.scroll_speed * dt ≤ -b.width then
    ⟨b.width, b.scroll_speed, b.x - b.scroll_speed * dt + b.width⟩
  else
    ⟨b.width, b.scroll_speed, b.x - b.scroll_speed * dt⟩

/-- A sequence of `Background.update` calls. -/
def Background.updates (b : Background) (dts : List ℚ) : Background :=
  dts.foldl Background.update b

/-- The cached render rectangle of the player sprite; only the position
fields matter for the claims (the sprite dimensions set by `get_rect()` do
not influence any modelled behaviour). -/
structure Rect where
  left : ℚ
  top : ℚ
deriving DecidableEq, Repr

/-- Embeds the `Player` entity state (main.py lines 153-212).
`cyclePos` is the state of the `cycle(range(3))` iterator: the next value
yielded by `next(self.indices)` is `cyclePos % 3`.  `frameIdx` is the index
of the currently displayed image (`self.image = self.images[index]`). -/
structure Player where
  x : ℚ
  y : ℚ
  rect : Rect
  frameIdx : ℕ
  cyclePos : ℕ
  time_acc : ℚ
  vertical_velocity : ℚ
deriving DecidableEq, Repr

/-- Embeds `frame_time = (animation_duration / len(images)) / 1000.0` with
`animation_duration = 50` and three images (main.py lines 155, 160-168). -/
def frame_time : ℚ := 50 / 3 / 1000

/-- Embeds `Player.set_frame` (main.py lines 194-198): select image `index`,
take a fresh rect for it and move it to the current position. -/
def Player.set_frame (p : Player) (i : ℕ) : Player :=
  ⟨p.x, p.y, ⟨p.x, p.y⟩, i, p.cyclePos, p.time_acc, p.vertical_velocity⟩

/-- Embeds the `Player.x` property setter (main.py lines 180-183): store the
coordinate and update `rect.left`. -/
def Player.setX (p : Player) (v : ℚ) : Player :=
  ⟨v, p.y, ⟨v, p.rect.top⟩, p.frameIdx, p.cyclePos, p.time_acc, p.vertical_velocity⟩

/-- Embeds the `Player.y` property setter (main.py lines 189-192): store the
coordinate and update `rect.top`. -/
def Player.setY (p : Player) (v : ℚ) : Player :=
  ⟨p.x, v, ⟨p.rect.left, v⟩, p.frameIdx, p.cyclePos, p.time_acc, p.vertical_velocity⟩

/-- Embeds `Player.boost_up` (main.py lines 200-201). -/
def Player.boost_up (p : Player) : Player :=
  ⟨p.x, p.y, p.rect, p.frameIdx, p.cyclePos, p.time_acc, p.vertical_velocity - 50⟩

/-- The `Player()` constructor state (main.py lines 157-170): position (0,0)
from `Entity.__init__`, `set_frame(0)` (which does not advance the cycle
iterator), `time_acc = 0`, `vertical_velocity = 0`. -/
def playerInit : Player := ⟨0, 0, ⟨0, 0⟩, 0, 0, 0, 0⟩

/-- One iteration of the animation `while` loop (main.py lines 207-209):
`time_acc -= frame_time; set_frame(next(indices))` where `next` yields
`cyclePos % 3` and advances the iterator. -/
def Player.drainStep (p : Player) : Player :=
  Player.set_frame
    ⟨p.x, p.y, p.rect, p.frameIdx, p.cyclePos + 1, p.time_acc - frame_time, p.vertical_velocity⟩
    (p.cyclePos % 3)

/-- Fuel-bounded unfolding of the animation `while` loop; the guard
`frame_time ≤ time_acc` is re-checked before every iteration exactly as in
the source, so any sufficiently large fuel yields the loop's result. -/
def Player.drainAux : ℕ → Player → Player
  | 0, p => p
  | fuel + 1, p =>
    if frame_time ≤ p.time_acc then Player.drainAux fuel (Player.drainStep p) else p

/-- Embeds the `while self.time_acc >= self.frame_time` loop of
`Player.update`; the fuel `⌊time_acc / frame_time⌋` is exactly the number of
iterations the loop performs. -/
def Player.drain (p : Player) : Player :=
  Player.drainAux (⌊p.time_acc / frame_time⌋).toNat p

/-- Embeds `Player.update` (main.py lines 203-209): accumulate time, apply
gravity `9.81 * dt * 10`, integrate `y += velocity * dt` (through the `y`
setter), then drain the animation accumulator. -/
def Player.update (p : Player) (dt : ℚ) : Player :=
  Player.drain
    (Player.setY
      ⟨p.x, p.y, p.rect, p.frameIdx, p.cyclePos, p.time_acc + dt,
        p.vertical_velocity + 981 / 100 * dt * 10⟩
      (p.y + (p.vertical_velocity + 981 / 100 * dt * 10) * dt))

/-- A sequence of `Player.update` calls. -/
def Player.updates (p : Player) (dts : List ℚ) : Player :=
  dts.foldl Player.update p

/-- The render rectangle agrees with the logical position. -/
def rectSync (p : Player) : Prop :=
  p.rect.left = p.x ∧ p.rect.top = p.y

/-- Embeds `Obstacle.Type` (main.py lines 79-82). -/
inductive ObstacleType where
  | rock
  | ice
deriving DecidableEq, Repr

/-- One entry of the static `GAME_DATA['entities']` list (main.py
lines 300-321): unique id, obstacle type, absolute world position. -/
structure ObstacleSpec where
  id : ℕ
  type : ObstacleType
  pos : ℚ × ℚ
deriving DecidableEq, Repr

/-- Embeds the `GAME_DATA` configuration dictionary (main.py lines 298-322). -/
structure GameData where
  scroll_speed : ℚ
  entities : List ObstacleSpec
deriving DecidableEq, Repr

/-- A live `Obstacle` entity (main.py lines 77-129): type, position, and the
collider list computed from its image's alpha mask at construction. -/
structure Obstacle where
  type : ObstacleType
  x : ℚ
  y : ℚ
  colliders : List Circle
deriving DecidableEq, Repr

/-- Embeds the `Game` state (main.py lines 215-223).  The live entity
mapping is an insertion-ordered association list, as a Python dict.
`assets` gives the collider list the `Obstacle` constructor derives from
each obstacle type's image (an external asset), cf. `collidersOf` below. -/
structure Game where
  width : ℚ
  height : ℚ
  distance : ℚ
  data : GameData
  entities : List (ℕ × Obstacle)
  background : Background
  player : Player
  assets : ObstacleType → List Circle

/-- The body of the `spawn_entities` loop for a single spec (main.py
lines 226-238): skip ids already present; otherwise, if the world x is
strictly inside `(distance, distance + width*2)` and the type is a known
obstacle type, append the new entity keyed by the spec id, positioned at
local x = `spec.x - distance`. -/
def spawnStep (dist w : ℚ) (assets : ObstacleType → List Circle)
    (m : List (ℕ × Obstacle)) (spec : ObstacleSpec) : List (ℕ × Obstacle) :=
  if (m.lookup spec.id).isSome then m
  else if spec.pos.1 > dist ∧ spec.pos.1 < dist + w * 2 then
    if spec.type = ObstacleType.rock ∨ spec.type = ObstacleType.ice then
      m ++ [(spec.id, ⟨spec.type, spec.pos.1 - dist, spec.pos.2, assets spec.type⟩)]
    else m
  else m

/-- Embeds `Game.spawn_entities` (main.py lines 225-238). -/
def Game.spawn_entities (g : Game) : Game :=
  { g with entities := g.data.entities.foldl (spawnStep g.distance g.width g.assets) g.entities }

/-- Embeds `Game.update_entities` (main.py lines 240-243): translate every
live entity left by `scroll_speed * dt` (`Obstacle.update` is a no-op). -/
def Game.update_entities (g : Game) (dt : ℚ) : Game :=
  { g with entities :=
      g.entities.map fun p => (p.1, ⟨p.2.type, p.2.x - g.data.scroll_speed * dt, p.2.y, p.2.colliders⟩) }

/-- Embeds `Game.prune_entities` (main.py lines 245-253): remove every live
entity whose local x is strictly below `-width`. -/
def Game.prune_entities (g : Game) : Game :=
  { g with entities := g.entities.filter fun p => !decide (p.2.x < -g.width) }

/-- The player's single collider `(44, 36, 44)` (main.py line 174),
picked out as `self.player.colliders[0]` in `check_collision`. -/
def playerCollider : Circle := ⟨44, 36, 44⟩

/-- Embeds `Game.check_collision` (main.py lines 255-270): translate the
player collider and every live entity collider to absolute positions and
report the first circle-circle hit. -/
def Game.check_collision (g : Game) : Bool :=
  g.entities.any fun p => p.2.colliders.any fun c =>
    check_circle_collision
      ⟨playerCollider.x + g.player.x, playerCollider.y + g.player.y, playerCollider.r⟩
      ⟨c.x + p.2.x, c.y + p.2.y, c.r⟩

/-- The distance-accumulator step of `Game.update` (main.py line 274). -/
def Game.stepDistance (g : Game) (dt : ℚ) : Game :=
  { g with distance := g.distance + dt * g.data.scroll_speed }

/-- The entity-pipeline prefix of a frame: distance accumulation, then
spawn, then entity translation, then pruning, in source order. -/
def Game.stage (g : Game) (dt : ℚ) : Game :=
  (((g.stepDistance dt).spawn_entities).update_entities dt).prune_entities

/-- The tail of a collision-free frame (main.py lines 283-284):
`background.update(dt)` and `player.update(dt)`. -/
def Game.frameFinish (g : Game) (dt : ℚ) : Game :=
  { g with background := g.background.update dt, player := g.player.update dt }

/-- Embeds `Game.update` (main.py lines 272-284).  `exit(1)` on collision is
modelled as `Except.error 1`; on no collision the frame completes with the
background and player updates. -/
def Game.update (g : Game) (dt : ℚ) : Except ℕ Game :=
  let g1 := g.stepDistance dt
  let g2 := g1.spawn_entities
  let g3 := g2.update_entities dt
  let g4 := g3.prune_entities
  if g4.check_collision then Except.error 1
  else Except.ok (g4.frameFinish dt)

/-- A sequence of frames; an exit stops the run. -/
def Game.updates (g : Game) : List ℚ → Except ℕ Game
  | [] => Except.ok g
  | dt :: rest =>
    match Game.update g dt with
    | Except.error e => Except.error e
    | Except.ok g' => Game.updates g' rest

/-- The obstacle that `spawn_entities` builds from an eligible spec. -/
def specObstacle (g : Game) (s : ObstacleSpec) : Obstacle :=
  ⟨s.type, s.pos.1 - g.distance, s.pos.2, g.assets s.type⟩

/-- Concrete game used by the C2 counterexample: one obstacle spec whose
world x equals the current `distance` exactly. -/
def exG2 : Game :=
  ⟨800, 480, 400, ⟨100, [⟨0, ObstacleType.rock, (400, 241)⟩]⟩, [],
    ⟨800, 100, 0⟩, playerInit, fun _ => []⟩

/-- Concrete game used for the `spawn_window_characterization` witness: like
`exG2` but with the spec strictly inside the window (`x = 401 > 400`). -/
def exG2b : Game :=
  ⟨800, 480, 400, ⟨100, [⟨0, ObstacleType.rock, (401, 241)⟩]⟩, [],
    ⟨800, 100, 0⟩, playerInit, fun _ => []⟩

/-- Concrete game used for the `game_ends_iff_collision` witness: no
obstacle specs, no live entities, and a player a million pixels above the
screen. -/
def wG10 : Game :=
  ⟨800, 480, 0, ⟨100, []⟩, [], ⟨800, 100, 0⟩,
    ⟨0, -1000000, ⟨0, -1000000⟩, 0, 0, 0, 0⟩, fun _ => []⟩

attribute [ext] Game

/-- Concrete game used by the `prune_final` witness: one live entity at
local x = -900 (below `-width = -800`) whose spec world x `1000` is behind
the travelled distance `4000`. -/
def wG3 : Game :=
  ⟨800, 480, 4000, ⟨100, [⟨0, ObstacleType.rock, (1000, 0)⟩]⟩,
    [(0, ⟨ObstacleType.rock, -900, 0, []⟩)], ⟨800, 100, 0⟩, playerInit, fun _ => []⟩

/-- The state of `wG3` after one frame with `dt = 0`: the entity is pruned
and nothing else changes. -/
def wG3' : Game :=
  ⟨800, 480, 4000, ⟨100, [⟨0, ObstacleType.rock, (1000, 0)⟩]⟩,
    [], ⟨800, 100, 0⟩, playerInit, fun _ => []⟩

/-- Concrete game used by the C3 counterexample: screen width 800, scroll
speed 1000000, one obstacle spec at world x 3900 with a small collider. -/
def exG3 : Game :=
  ⟨800, 480, 0, ⟨1000000, [⟨0, ObstacleType.rock, (3900, 0)⟩]⟩, [],
    ⟨800, 1000000, 0⟩, playerInit, fun _ => [⟨0, 0, 1⟩]⟩

/-- The state of `exG3` after the first frame (`dt = 6/2500`, advancing the
distance by 2400): the obstacle was spawned at local x 1500, shifted to
-900 and pruned in the very same frame. -/
def exG3mid : Game :=
  ⟨800, 480, 2400, ⟨1000000, [⟨0, ObstacleType.rock, (3900, 0)⟩]⟩, [],
    ⟨800, 1000000, -1600⟩,
    ⟨0, 8829/15625000, ⟨0, 8829/15625000⟩, 0, 0, 3/1250, 2943/12500⟩,
    fun _ => [⟨0, 0, 1⟩]⟩

/-- Per-row opaque span under construction: `segments[y] = [min_x, max_x]`
with `None` for rows not yet seen opaque (main.py lines 97-106). -/
abbrev Seg := Option ℕ × Option ℕ

/-- One inner-loop step of the segment scan (main.py lines 103-106): if the
pixel `(x, y)` is opaque, set `segments[y][0]` on first sight and always
update `segments[y][1] = x`.  The `len(segments) != height` lazy append of
the source is replaced by initialising all `height` rows up front
(`segmentsOf`), which is equivalent for the rectangular masks
`pygame.surfarray.pixels_alpha` produces. -/
def procCell (x y : ℕ) (alpha : Bool) (segs : List Seg) : List Seg :=
  if alpha then
    match segs[y]? with
    | some s => segs.set y (some (s.1.getD x), some x)
    | none => segs
  else segs

/-- Scan one column (`for y, alpha in enumerate(column)`, main.py line 99);
`y` is the running row index. -/
def procColumn (x : ℕ) : ℕ → List Bool → List Seg → List Seg
  | _, [], segs => segs
  | y, a :: rest, segs => procColumn x (y + 1) rest (procCell x y a segs)

/-- Scan all columns (`for x, column in enumerate(alpha_values)`, main.py
line 98); `x` is the running column index. -/
def segCols : ℕ → List (List Bool) → List Seg → List Seg
  | _, [], segs => segs
  | x, c :: cs, segs => segCols (x + 1) cs (procColumn x 0 c segs)

/-- The per-row opaque spans of a transparency mask, given as a list of
columns (main.py lines 96-106). -/
def segmentsOf (height : ℕ) (cols : List (List Bool)) : List Seg :=
  segCols 0 cols (List.replicate height (none, none))

/-- Fuel-bounded chunking; the fuel (set to the list length in `chunkify`)
only bounds the recursion, each step emits `take k` and recurses on
`drop k`. -/
def chunkifyAux {α : Type} (k : ℕ) : ℕ → List α → List (List α)
  | 0, _ => []
  | _, [] => []
  | fuel + 1, a :: as => (a :: as).take k :: chunkifyAux k fuel ((a :: as).drop k)

/-- Embeds the `zip_longest(*[iter(segments)] * int(height / 10))` grouper
idiom with the `None` fill values filtered out (main.py lines 109-111): the
segments are grouped into consecutive chunks of `k = height / 10` rows, the
last chunk possibly shorter; for `k = 0` the grouper yields nothing. -/
def chunkify {α : Type} (k : ℕ) (l : List α) : List (List α) :=
  if k = 0 then [] else chunkifyAux k l.length l

/-- Sequences a list of optional values; `none` anywhere poisons the result,
modelling the `TypeError` Python's `min`/`max`/arithmetic raise when a row
has no opaque pixel and its segment endpoints are still `None`. -/
def seqOpt {α : Type} : List (Option α) → Option (List α)
  | [] => some []
  | o :: rest =>
    match o with
    | some a => (seqOpt rest).map (a :: ·)
    | none => none

/-- One band of the collider derivation (main.py lines 112-119): for a chunk
of row spans compute `min_x`, `max_x`, the mean `x` of the per-row midpoints,
the chunk height `len(chunk) / len(segments) * height`, the running
`y = v_offset + chunk_height`, and the radius `(max_x - min_x) / 2`.
Returns the circle together with the new `v_offset`. -/
def bandOf (height segLen : ℕ) (v : ℚ) (chunk : List Seg) : Option (Circle × ℚ) :=
  match seqOpt (chunk.map fun s => s.1.bind fun a => s.2.map fun b => (a, b)) with
  | none => none
  | some [] => none
  | some (p :: ps) =>
    let min_x : ℕ := ps.foldl (fun m q => min m q.1) p.1
    let max_x : ℕ := ps.foldl (fun m q => max m q.2) p.2
    let n : ℚ := ((p :: ps).length : ℕ)
    let cx : ℚ := (((p :: ps).map fun q => ((q.1 : ℚ) + (q.2 : ℚ)) / 2).sum) / n
    let ch : ℚ := n / (segLen : ℚ) * (height : ℚ)
    some (⟨cx, v + ch, ((max_x : ℚ) - (min_x : ℚ)) / 2⟩, v + ch)

/-- The `for c, chunk in enumerate(...)` loop (main.py lines 110-119),
threading the cumulative `v_offset`; a failing band poisons the result. -/
def bandsOf (height segLen : ℕ) : ℚ → List (List Seg) → Option (List Circle)
  | _, [] => some []
  | v, c :: cs =>
    (bandOf height segLen v c).bind fun cv =>
      (bandsOf height segLen cv.2 cs).map fun rest => cv.1 :: rest

/-- The collider list `Obstacle.__init__` derives from a transparency mask
(main.py lines 95-119); `none` models the constructor raising on a row with
no opaque pixels. -/
def collidersOf (height : ℕ) (cols : List (List Bool)) : Option (List Circle) :=
  bandsOf height (segmentsOf height cols).length 0
    (chunkify (height / 10) (segmentsOf height cols))

/-- The C8 counterexample mask: width 11, height 20.  Row 0 is opaque at
columns 0-2, row 1 at columns 8-10, rows 2-19 at column 5 only. -/
def exMask : List (List Bool) :=
  (List.range 11).map fun x => (List.range 20).map fun y =>
    if y = 0 then decide (x ≤ 2) else if y = 1 then decide (8 ≤ x) else decide (x = 5)

/-- The segments of `exMask`. -/
def exSegs : List Seg :=
  [(some 0, some 2), (some 8, some 10)] ++ List.replicate 18 (some 5, some 5)

/-- The colliders the source derives from `exMask`. -/
def exColl : List Circle :=
  [⟨5, 2, 5⟩, ⟨5, 4, 0⟩, ⟨5, 6, 0⟩, ⟨5, 8, 0⟩, ⟨5, 10, 0⟩,
    ⟨5, 12, 0⟩, ⟨5, 14, 0⟩, ⟨5, 16, 0⟩, ⟨5, 18, 0⟩, ⟨5, 20, 0⟩]

/-- Claim-side view of one pixel of the mask. -/
def maskAt (cols : List (List Bool)) (x y : ℕ) : Bool :=
  ((cols[x]?.getD [])[y]?.getD false)

/-- Claim-side list of the opaque column indices of row `y`. -/
def rowOpaque (cols : List (List Bool)) (y : ℕ) : List ℕ :=
  (List.range cols.length).filter fun x => maskAt cols x y

/-- Stated from the amended claim's words: the minimum and maximum
opaque-pixel x of row `y`, or `none` for a fully transparent row. -/
def rowSpan (cols : List (List Bool)) (y : ℕ) : Option (ℕ × ℕ) :=
  match rowOpaque cols y with
  | [] => none
  | a :: as => some (as.foldl min a, as.foldl max a)

/-- Stated from the amended claim's words: for each band of row spans emit a
circle whose center-x is the mean of the per-row midpoints, whose radius is
half of (band max x minus band min x), and whose center-y is the cumulative
height of the bands up to and including the current one. -/
def claimedBands (v : ℚ) : List (List (ℕ × ℕ)) → List Circle
  | [] => []
  | band :: rest =>
    match band with
    | [] => claimedBands v rest
    | p :: ps =>
      ⟨(((p :: ps).map fun q => ((q.1 : ℚ) + (q.2 : ℚ)) / 2).sum) / (((p :: ps).length : ℕ) : ℚ),
        v + (((p :: ps).length : ℕ) : ℚ),
        (((ps.foldl (fun m q => max m q.2) p.2 : ℕ) : ℚ) -
          ((ps.foldl (fun m q => min m q.1) p.1 : ℕ) : ℚ)) / 2⟩ ::
        claimedBands (v + (((p :: ps).length : ℕ) : ℚ)) rest

/-- Stated from the amended claim's words: all rows must have an opaque
span; the spans are grouped into bands of `floor(height/10)` consecutive
rows (none when that is zero, the last possibly shorter) and turned into
circles by `claimedBands`. -/
def claimedColliders (height : ℕ) (cols : List (List Bool)) : Option (List Circle) :=
  if height / 10 = 0 then some []
  else (seqOpt ((List.range height).map (rowSpan cols))).map fun rows =>
    claimedBands 0 (chunkify (height / 10) rows)

/-- Packs an optional row span into the segment representation. -/
def optPair (o : Option (ℕ × ℕ)) : Seg :=
  (o.map Prod.fst, o.map Prod.snd)

/-- C1: the circle-circle collision test reports a collision iff the Euclidean
distance between the centers is strictly less than the sum of the radii; in
particular centers exactly `r0+r1` apart do not collide and centers closer
than `r0+r1` do. -/
theorem check_circle_collision_iff (c0 c1 : Circle) :
    check_circle_collision c0 c1 = true ↔
      Real.sqrt (((c1.x : ℝ) - (c0.x : ℝ)) ^ 2 + ((c1.y : ℝ) - (c0.y : ℝ)) ^ 2) <
        (c0.r : ℝ) + (c1.r : ℝ) := by
  rw [check_circle_collision]
  simp only [decide_eq_true_eq]
  constructor
  · rintro ⟨hs, hlt⟩
    have hs' : (0 : ℝ) < (c0.r : ℝ) + (c1.r : ℝ) := by exact_mod_cast hs
    rw [Real.sqrt_lt' hs']
    have hlt' : ((c1.x : ℝ) - (c0.x : ℝ)) * ((c1.x : ℝ) - (c0.x : ℝ)) +
        ((c1.y : ℝ) - (c0.y : ℝ)) * ((c1.y : ℝ) - (c0.y : ℝ)) <
        ((c0.r : ℝ) + (c1.r : ℝ)) * ((c0.r : ℝ) + (c1.r : ℝ)) := by
      exact_mod_cast hlt
    nlinarith [hlt']
  · intro h
    have hs' : (0 : ℝ) < (c0.r : ℝ) + (c1.r : ℝ) :=
      lt_of_le_of_lt (Real.sqrt_nonneg _) h
    have h2 := (Real.sqrt_lt' hs').mp h
    refine ⟨by exact_mod_cast hs', ?_⟩
    have h3 : ((c1.x : ℝ) - (c0.x : ℝ)) * ((c1.x : ℝ) - (c0.x : ℝ)) +
        ((c1.y : ℝ) - (c0.y : ℝ)) * ((c1.y : ℝ) - (c0.y : ℝ)) <
        ((c0.r : ℝ) + (c1.r : ℝ)) * ((c0.r : ℝ) + (c1.r : ℝ)) := by
      nlinarith [h2]
    exact_mod_cast h3

/-- C4 counterexample: a `Background` with `width = 1 > 0`, starting at the
constructor value `x = 0`, ends the single update `update(1)` (with
`dt = 1 ≥ 0`) at `x = -2`, strictly below `-width`: the wrap adds `width`
only once, so a large enough `dt` leaves `x` below `-width`. -/
theorem background_wrap_cex :
    ((⟨1, 3, 0⟩ : Background).update 1).x < -(⟨1, 3, 0⟩ : Background).width := by
  norm_num [Background.update]

theorem background_update_width (b : Background) (dt : ℚ) :
    (b.update dt).width = b.width := by
  rw [Background.update]
  split <;> rfl

theorem background_update_scroll (b : Background) (dt : ℚ) :
    (b.update dt).scroll_speed = b.scroll_speed := by
  rw [Background.update]
  split <;> rfl

theorem background_update_mem_Ioc (b : Background) (dt : ℚ)
    (_hw : 0 < b.width) (hlo : -b.width < b.x) (hhi : b.x ≤ 0)
    (hd0 : 0 ≤ b.scroll_speed * dt) (hd1 : b.scroll_speed * dt ≤ b.width) :
    -b.width < (b.update dt).x ∧ (b.update dt).x ≤ 0 := by
  rw [Background.update]
  split
  · rename_i hyes
    constructor <;> simp only <;> linarith
  · rename_i hno
    push_neg at hno
    constructor <;> simp only <;> linarith

/-- C4 (amended): for every `Background` with `width > 0`, starting from
`x ∈ (-width, 0]` (as at construction, where `x = 0`), any sequence of
`update(dt)` calls each satisfying `0 ≤ scroll_speed*dt ≤ width` keeps `x`
in `(-width, 0]`; in particular whenever an update crosses the `-width`
threshold, `x` is re-normalised back into `(-width, 0]`. -/
theorem background_wrap_bounded (b : Background) (dts : List ℚ)
    (hw : 0 < b.width) (hlo : -b.width < b.x) (hhi : b.x ≤ 0)
    (hd : ∀ dt ∈ dts, 0 ≤ b.scroll_speed * dt ∧ b.scroll_speed * dt ≤ b.width) :
    -b.width < (b.updates dts).x ∧ (b.updates dts).x ≤ 0 := by
  induction dts generalizing b with
  | nil => exact ⟨hlo, hhi⟩
  | cons dt rest ih =>
    have hstep := background_update_mem_Ioc b dt hw hlo hhi
      (hd dt (by simp)).1 (hd dt (by simp)).2
    have hw' : 0 < (b.update dt).width := by rw [background_update_width]; exact hw
    have htail := ih (b.update dt) hw'
      (by rw [background_update_width]; exact hstep.1) hstep.2
      (by
        intro dt' hdt'
        rw [background_update_scroll, background_update_width]
        exact hd dt' (by simp [hdt']))
    rw [background_update_width] at htail
    simpa [Background.updates] using htail

/-- Witness for `background_wrap_bounded` at a concrete background and
sequence of updates. -/
theorem background_wrap_bounded_witness :
    -(⟨1, 1, 0⟩ : Background).width < ((⟨1, 1, 0⟩ : Background).updates [1/2, 1/2, 1/2]).x ∧
      ((⟨1, 1, 0⟩ : Background).updates [1/2, 1/2, 1/2]).x ≤ 0 :=
  background_wrap_bounded ⟨1, 1, 0⟩ [1/2, 1/2, 1/2] (by norm_num) (by norm_num) (by norm_num)
    (by intro dt hdt; simp at hdt; subst hdt; norm_num)

theorem frame_time_pos : 0 < frame_time := by norm_num [frame_time]

theorem drainAux_rectSync (fuel : ℕ) (p : Player) (h : rectSync p) :
    rectSync (Player.drainAux fuel p) := by
  induction fuel generalizing p with
  | zero => exact h
  | succ fuel ih =>
    rw [Player.drainAux]
    split
    · exact ih _ ⟨rfl, rfl⟩
    · exact h

/-- C9: after construction and after each `Player` operation (the `x` and
`y` property setters, `set_frame`, `boost_up`, `update`) the cached render
rectangle stays synchronised with the logical position:
`rect.left = x` and `rect.top = y`. -/
theorem player_rect_sync :
    rectSync playerInit ∧
      (∀ p v, rectSync p → rectSync (Player.setX p v)) ∧
      (∀ p v, rectSync p → rectSync (Player.setY p v)) ∧
      (∀ p i, rectSync p → rectSync (Player.set_frame p i)) ∧
      (∀ p, rectSync p → rectSync (Player.boost_up p)) ∧
      (∀ p dt, rectSync p → rectSync (Player.update p dt)) := by
  refine ⟨⟨rfl, rfl⟩, ?_, ?_, ?_, ?_, ?_⟩
  · intro p v h; exact ⟨rfl, h.2⟩
  · intro p v h; exact ⟨h.1, rfl⟩
  · intro p i _; exact ⟨rfl, rfl⟩
  · intro p h; exact h
  · intro p dt h
    exact drainAux_rectSync _ _ ⟨h.1, rfl⟩

/-- Witness for `player_rect_sync`: the invariant holds at a concrete state
produced by an `x`-setter call on the freshly constructed player. -/
theorem player_rect_sync_witness : rectSync (Player.setX playerInit 7) :=
  player_rect_sync.2.1 playerInit 7 ⟨rfl, rfl⟩

theorem drainAux_x (fuel : ℕ) (p : Player) : (Player.drainAux fuel p).x = p.x := by
  induction fuel generalizing p with
  | zero => rfl
  | succ fuel ih =>
    rw [Player.drainAux]
    split
    · rw [ih]; rfl
    · rfl

theorem drainAux_y (fuel : ℕ) (p : Player) : (Player.drainAux fuel p).y = p.y := by
  induction fuel generalizing p with
  | zero => rfl
  | succ fuel ih =>
    rw [Player.drainAux]
    split
    · rw [ih]; rfl
    · rfl

theorem drainAux_velocity (fuel : ℕ) (p : Player) :
    (Player.drainAux fuel p).vertical_velocity = p.vertical_velocity := by
  induction fuel generalizing p with
  | zero => rfl
  | succ fuel ih =>
    rw [Player.drainAux]
    split
    · rw [ih]; rfl
    · rfl

theorem drainAux_acc_nonneg (fuel : ℕ) (p : Player) (h : 0 ≤ p.time_acc) :
    0 ≤ (Player.drainAux fuel p).time_acc := by
  induction fuel generalizing p with
  | zero => exact h
  | succ fuel ih =>
    rw [Player.drainAux]
    split
    · rename_i hg
      refine ih _ ?_
      show 0 ≤ p.time_acc - frame_time
      linarith
    · exact h

theorem drainAux_conserve (fuel : ℕ) (p : Player) :
    ∃ k : ℕ, (Player.drainAux fuel p).cyclePos = p.cyclePos + k ∧
      (Player.drainAux fuel p).time_acc = p.time_acc - k * frame_time := by
  induction fuel generalizing p with
  | zero => refine ⟨0, ?_, ?_⟩ <;> simp [Player.drainAux]
  | succ fuel ih =>
    rw [Player.drainAux]
    split
    · obtain ⟨k, hk1, hk2⟩ := ih (Player.drainStep p)
      refine ⟨k + 1, ?_, ?_⟩
      · rw [hk1]; show p.cyclePos + 1 + k = p.cyclePos + (k + 1); ring
      · rw [hk2]
        show p.time_acc - frame_time - k * frame_time = p.time_acc - (k + 1 : ℕ) * frame_time
        push_cast
        ring
    · refine ⟨0, ?_, ?_⟩ <;> simp

theorem drainAux_acc_lt (fuel : ℕ) (p : Player)
    (h : (⌊p.time_acc / frame_time⌋).toNat ≤ fuel) :
    (Player.drainAux fuel p).time_acc < frame_time := by
  induction fuel generalizing p with
  | zero =>
    have h0 : ⌊p.time_acc / frame_time⌋ ≤ 0 := by omega
    have h1 : p.time_acc / frame_time < 1 := by
      have := Int.lt_floor_add_one (p.time_acc / frame_time)
      calc p.time_acc / frame_time < ⌊p.time_acc / frame_time⌋ + 1 := this
        _ ≤ 0 + 1 := by exact_mod_cast add_le_add_right (Int.cast_le.mpr h0) 1
        _ = 1 := by ring
    rw [Player.drainAux]
    rw [div_lt_one frame_time_pos] at h1
    simpa using h1
  | succ fuel ih =>
    rw [Player.drainAux]
    split
    · rename_i hg
      refine ih (Player.drainStep p) ?_
      have hfl : ⌊(Player.drainStep p).time_acc / frame_time⌋ =
          ⌊p.time_acc / frame_time⌋ - 1 := by
        show ⌊(p.time_acc - frame_time) / frame_time⌋ = _
        rw [sub_div, div_self (ne_of_gt frame_time_pos)]
        rw [show (1 : ℚ) = ((1 : ℤ) : ℚ) by norm_num]
        rw [Int.floor_sub_int]
      have hge : 1 ≤ ⌊p.time_acc / frame_time⌋ := by
        rw [Int.le_floor]
        push_cast
        rw [le_div_iff₀ frame_time_pos]
        linarith
      rw [hfl]
      omega
    · rename_i hg
      push_neg at hg
      exact hg

theorem drainAux_frameLag (fuel : ℕ) (p : Player)
    (h : p.frameIdx = (p.cyclePos + 2) % 3) :
    (Player.drainAux fuel p).frameIdx = ((Player.drainAux fuel p).cyclePos + 2) % 3 := by
  induction fuel generalizing p with
  | zero => exact h
  | succ fuel ih =>
    rw [Player.drainAux]
    split
    · refine ih _ ?_
      show p.cyclePos % 3 = (p.cyclePos + 1 + 2) % 3
      omega
    · exact h

theorem player_update_acc_lt (p : Player) (dt : ℚ) :
    (Player.update p dt).time_acc < frame_time :=
  drainAux_acc_lt _ _ le_rfl

theorem player_update_acc_nonneg (p : Player) (dt : ℚ) (h0 : 0 ≤ p.time_acc)
    (hdt : 0 ≤ dt) : 0 ≤ (Player.update p dt).time_acc := by
  refine drainAux_acc_nonneg _ _ ?_
  show 0 ≤ p.time_acc + dt
  linarith

theorem player_update_conserve (p : Player) (dt : ℚ) :
    ∃ k : ℕ, (Player.update p dt).cyclePos = p.cyclePos + k ∧
      (Player.update p dt).time_acc = p.time_acc + dt - k * frame_time := by
  obtain ⟨k, hk1, hk2⟩ := drainAux_conserve (⌊(p.time_acc + dt) / frame_time⌋).toNat
    (Player.setY
      ⟨p.x, p.y, p.rect, p.frameIdx, p.cyclePos, p.time_acc + dt,
        p.vertical_velocity + 981 / 100 * dt * 10⟩
      (p.y + (p.vertical_velocity + 981 / 100 * dt * 10) * dt))
  exact ⟨k, hk1, hk2⟩

theorem player_update_frameLag (p : Player) (dt : ℚ)
    (h : p.frameIdx = (p.cyclePos + 2) % 3) :
    (Player.update p dt).frameIdx = ((Player.update p dt).cyclePos + 2) % 3 :=
  drainAux_frameLag _ _ h

theorem player_updates_invariant (dts : List ℚ) (p : Player)
    (hdts : ∀ dt ∈ dts, 0 ≤ dt) (h0 : 0 ≤ p.time_acc) :
    ∃ k : ℕ, (Player.updates p dts).cyclePos = p.cyclePos + k ∧
      (Player.updates p dts).time_acc = p.time_acc + dts.sum - k * frame_time ∧
      0 ≤ (Player.updates p dts).time_acc := by
  induction dts generalizing p with
  | nil => exact ⟨0, by simp [Player.updates], by simp [Player.updates], by
      simpa [Player.updates] using h0⟩
  | cons dt rest ih =>
    have hdt : 0 ≤ dt := hdts dt (by simp)
    obtain ⟨k1, hk11, hk12⟩ := player_update_conserve p dt
    have h0' : 0 ≤ (Player.update p dt).time_acc := player_update_acc_nonneg p dt h0 hdt
    obtain ⟨k2, hk21, hk22, hk23⟩ := ih (Player.update p dt)
      (fun d hd => hdts d (by simp [hd])) h0'
    refine ⟨k1 + k2, ?_, ?_, ?_⟩
    · show (Player.updates (Player.update p dt) rest).cyclePos = _
      rw [hk21, hk11]
      ring
    · show (Player.updates (Player.update p dt) rest).time_acc = _
      rw [hk22, hk12]
      push_cast
      show p.time_acc + dt - k1 * frame_time + rest.sum - k2 * frame_time =
        p.time_acc + (dt + rest.sum) - (k1 + k2) * frame_time
      ring
    · exact hk23

theorem player_updates_acc_lt (dts : List ℚ) (p : Player) (hne : dts ≠ []) :
    (Player.updates p dts).time_acc < frame_time := by
  induction dts generalizing p with
  | nil => exact absurd rfl hne
  | cons dt rest ih =>
    rcases eq_or_ne rest [] with hr | hr
    · subst hr
      simpa [Player.updates] using player_update_acc_lt p dt
    · exact ih (Player.update p dt) hr

theorem player_updates_frameLag (dts : List ℚ) (p : Player)
    (h : p.frameIdx = (p.cyclePos + 2) % 3) :
    (Player.updates p dts).frameIdx = ((Player.updates p dts).cyclePos + 2) % 3 := by
  induction dts generalizing p with
  | nil => exact h
  | cons dt rest ih => exact ih (Player.update p dt) (player_update_frameLag p dt h)

/-- C7 (amended): for every `Player` state whose displayed frame lags the
cycle iterator by one (`frameIdx = (cyclePos + 2) % 3`, as holds after any
update that advanced at least one frame — but not in the freshly constructed
player) and whose accumulator lies in `[0, frame_time)`, any sequence of
`update(dt)` calls with `dt ≥ 0` accumulating exactly `3 * frame_time` of
elapsed time (3 = frame count) returns the frame index to its starting
value: the loop drains the accumulator one cyclic frame per full
`frame_time` step, even when a single `dt` spans several steps. -/
theorem player_anim_cycle (p : Player) (dts : List ℚ)
    (hlag : p.frameIdx = (p.cyclePos + 2) % 3)
    (h0 : 0 ≤ p.time_acc) (h1 : p.time_acc < frame_time)
    (hdts : ∀ dt ∈ dts, 0 ≤ dt) (hsum : dts.sum = 3 * frame_time) :
    (Player.updates p dts).frameIdx = p.frameIdx := by
  have hne : dts ≠ [] := by
    intro hnil
    rw [hnil] at hsum
    simp at hsum
    have := frame_time_pos
    rw [hsum] at this
    exact lt_irrefl 0 this
  obtain ⟨k, hk1, hk2, hk3⟩ := player_updates_invariant dts p hdts h0
  have hlt := player_updates_acc_lt dts p hne
  rw [hsum] at hk2
  have hft := frame_time_pos
  have hk_lt : (k : ℚ) < 4 := by
    by_contra hk4
    push_neg at hk4
    have : (4 : ℚ) * frame_time ≤ k * frame_time := by
      exact mul_le_mul_of_nonneg_right hk4 (le_of_lt hft)
    rw [hk2] at hk3
    linarith
  have hk_gt : (2 : ℚ) < k := by
    by_contra hk2'
    push_neg at hk2'
    have : (k : ℚ) * frame_time ≤ 2 * frame_time :=
      mul_le_mul_of_nonneg_right hk2' (le_of_lt hft)
    rw [hk2] at hlt
    linarith
  have hk3' : k = 3 := by
    have h4 : k < 4 := by exact_mod_cast hk_lt
    have h2 : 2 < k := by exact_mod_cast hk_gt
    omega
  have hfin := player_updates_frameLag dts p hlag
  rw [hfin, hk1, hk3', hlag]
  omega

/-- Witness for `player_anim_cycle`: a player state with the lag invariant
(`frameIdx = 2`, `cyclePos = 0`) returns to frame 2 after a single update of
`dt = 1/20 = 3 * frame_time`. -/
theorem player_anim_cycle_witness :
    (Player.updates ⟨0, 0, ⟨0, 0⟩, 2, 0, 0, 0⟩ [1/20]).frameIdx =
      (⟨0, 0, ⟨0, 0⟩, 2, 0, 0, 0⟩ : Player).frameIdx :=
  player_anim_cycle ⟨0, 0, ⟨0, 0⟩, 2, 0, 0, 0⟩ [1/20] (by norm_num)
    (by norm_num) (by norm_num [frame_time])
    (by intro dt hdt; simp at hdt; subst hdt; norm_num)
    (by norm_num [frame_time])

/-- C7 counterexample: the freshly constructed player (`set_frame(0)` does
not consume the `cycle` iterator, so the first advance displays frame 0
again) starts at frame index 0 but ends at frame index 2 after accumulating
exactly `3 * frame_time = 1/20` of elapsed time, so the frame index does not
return to its starting value from every state. -/
theorem player_anim_cycle_cex :
    (Player.update playerInit (1/20)).frameIdx ≠ playerInit.frameIdx := by
  have hq : ((0 : ℚ) + 1/20) / frame_time = 3 := by norm_num [frame_time]
  have hfl : (⌊((0 : ℚ) + 1/20) / frame_time⌋).toNat = 3 := by
    rw [hq]
    rw [show (3 : ℚ) = ((3 : ℤ) : ℚ) by norm_num]
    rw [Int.floor_intCast]
    rfl
  show (Player.drain _).frameIdx ≠ _
  rw [Player.drain]
  simp only [Player.setY, playerInit]
  rw [hfl]
  norm_num [Player.drainAux, Player.drainStep, Player.set_frame, frame_time]

/-- C5: a frame either detects a collision after the
spawn/update-entities/prune pipeline and terminates the session immediately
with exit status 1 — leaving the background and player updates unexecuted —
or completes all steps in the order spawn, update_entities, prune,
collision check, background update, player update. -/
theorem game_update_exits_on_hit (g : Game) (dt : ℚ) :
    Game.update g dt =
      if (Game.stage g dt).check_collision then Except.error 1
      else Except.ok ((Game.stage g dt).frameFinish dt) := rfl

theorem game_update_run (g : Game) (dt : ℚ) :
    Game.update g dt =
      if (Game.stage g dt).check_collision then Except.error 1
      else Except.ok ((Game.stage g dt).frameFinish dt) := rfl

theorem lookup_or {β : Type} (k : ℕ) (m l2 : List (ℕ × β)) :
    List.lookup k (m ++ l2) = (List.lookup k m).or (List.lookup k l2) := by
  induction m with
  | nil => simp [List.lookup]
  | cons a t ih =>
    rcases a with ⟨a, v⟩
    by_cases h : k = a
    · subst h
      simp [List.lookup]
    · have hb : (k == a) = false := beq_eq_false_iff_ne.mpr h
      simp [List.lookup, hb, ih]

theorem spawnStep_shape (dist w : ℚ) (assets : ObstacleType → List Circle)
    (m : List (ℕ × Obstacle)) (s : ObstacleSpec) :
    spawnStep dist w assets m s = m ∨
      spawnStep dist w assets m s =
        m ++ [(s.id, ⟨s.type, s.pos.1 - dist, s.pos.2, assets s.type⟩)] := by
  rw [spawnStep]
  split
  · exact Or.inl rfl
  · split
    · split
      · exact Or.inr rfl
      · exact Or.inl rfl
    · exact Or.inl rfl

theorem spawnStep_type_check (s : ObstacleSpec) :
    (s.type = ObstacleType.rock ∨ s.type = ObstacleType.ice) := by
  cases s.type
  · exact Or.inl rfl
  · exact Or.inr rfl

theorem foldl_spawn_lookup_some (dist w : ℚ) (assets : ObstacleType → List Circle)
    (l : List ObstacleSpec) (m : List (ℕ × Obstacle)) (k : ℕ) (v : Obstacle)
    (h : m.lookup k = some v) :
    (l.foldl (spawnStep dist w assets) m).lookup k = some v := by
  induction l generalizing m with
  | nil => exact h
  | cons s rest ih =>
    refine ih (spawnStep dist w assets m s) ?_
    rcases spawnStep_shape dist w assets m s with hs | hs <;> rw [hs]
    · exact h
    · rw [lookup_or, h]
      rfl

theorem foldl_spawn_lookup_isSome (dist w : ℚ) (assets : ObstacleType → List Circle)
    (l : List ObstacleSpec) (m : List (ℕ × Obstacle)) (k : ℕ)
    (h : (m.lookup k).isSome) :
    ((l.foldl (spawnStep dist w assets) m).lookup k).isSome := by
  obtain ⟨v, hv⟩ := Option.isSome_iff_exists.mp h
  rw [foldl_spawn_lookup_some dist w assets l m k v hv]
  rfl

theorem foldl_spawn_mem_isSome (dist w : ℚ) (assets : ObstacleType → List Circle)
    (l : List ObstacleSpec) (m : List (ℕ × Obstacle)) (s : ObstacleSpec)
    (hs : s ∈ l) (hwin : s.pos.1 > dist ∧ s.pos.1 < dist + w * 2) :
    ((l.foldl (spawnStep dist w assets) m).lookup s.id).isSome := by
  induction l generalizing m with
  | nil => exact absurd hs (List.not_mem_nil s)
  | cons t rest ih =>
    rcases List.mem_cons.mp hs with rfl | hmem
    · by_cases hsome : (m.lookup s.id).isSome
      · refine foldl_spawn_lookup_isSome dist w assets rest _ s.id ?_
        rw [spawnStep, if_pos hsome]
        exact hsome
      · refine foldl_spawn_lookup_isSome dist w assets rest _ s.id ?_
        rw [spawnStep, if_neg hsome, if_pos hwin, if_pos (spawnStep_type_check s)]
        rw [lookup_or]
        rw [Option.not_isSome_iff_eq_none.mp hsome]
        simp [List.lookup]
    · exact ih (spawnStep dist w assets m t) hmem

theorem foldl_spawn_fixed (dist w : ℚ) (assets : ObstacleType → List Circle)
    (l : List ObstacleSpec) (m : List (ℕ × Obstacle))
    (h : ∀ s ∈ l, spawnStep dist w assets m s = m) :
    l.foldl (spawnStep dist w assets) m = m := by
  induction l with
  | nil => rfl
  | cons s rest ih =>
    have hstep : spawnStep dist w assets m s = m := h s (by simp)
    show List.foldl (spawnStep dist w assets) (spawnStep dist w assets m s) rest = m
    rw [hstep]
    exact ih (fun t ht => h t (by simp [ht]))

/-- C6: with `distance` unchanged, a second call to `spawn_entities` inserts
nothing: already-present ids are skipped, so the live mapping is unchanged
and each eligible obstacle id is spawned at most once. -/
theorem spawn_entities_idempotent (g : Game) :
    (g.spawn_entities).spawn_entities = g.spawn_entities := by
  show Game.spawn_entities { g with entities := _ } = _
  rw [Game.spawn_entities]
  rw [Game.spawn_entities]
  simp only
  congr 1
  refine foldl_spawn_fixed _ _ _ _ _ ?_
  intro s hs
  rw [spawnStep]
  split
  · rfl
  · rename_i hnone
    split
    · rename_i hwin
      exact absurd (foldl_spawn_mem_isSome g.distance g.width g.assets
        g.data.entities g.entities s hs hwin) hnone
    · rfl

theorem foldl_spawn_lookup_none (dist w : ℚ) (assets : ObstacleType → List Circle)
    (l : List ObstacleSpec) (m : List (ℕ × Obstacle)) (k : ℕ)
    (hids : ∀ s ∈ l, s.id ≠ k) (h : m.lookup k = none) :
    (l.foldl (spawnStep dist w assets) m).lookup k = none := by
  induction l generalizing m with
  | nil => exact h
  | cons s rest ih =>
    refine ih _ (fun t ht => hids t (by simp [ht])) ?_
    rcases spawnStep_shape dist w assets m s with hs | hs <;> rw [hs]
    · exact h
    · rw [lookup_or, h]
      have hb : (k == s.id) = false := beq_eq_false_iff_ne.mpr (Ne.symm (hids s (by simp)))
      simp [List.lookup, hb]

theorem foldl_spawn_lookup_char (dist w : ℚ) (assets : ObstacleType → List Circle)
    (l : List ObstacleSpec) (m : List (ℕ × Obstacle)) (s : ObstacleSpec)
    (hmem : s ∈ l) (hnodup : (l.map ObstacleSpec.id).Nodup)
    (habsent : m.lookup s.id = none) :
    (l.foldl (spawnStep dist w assets) m).lookup s.id =
      if s.pos.1 > dist ∧ s.pos.1 < dist + w * 2 then
        some ⟨s.type, s.pos.1 - dist, s.pos.2, assets s.type⟩
      else none := by
  induction l generalizing m with
  | nil => exact absurd hmem (List.not_mem_nil s)
  | cons t rest ih =>
    rw [List.map_cons, List.nodup_cons] at hnodup
    rcases List.mem_cons.mp hmem with rfl | hmem'
    · by_cases hwin : s.pos.1 > dist ∧ s.pos.1 < dist + w * 2
      · rw [if_pos hwin]
        have hstep : spawnStep dist w assets m s =
            m ++ [(s.id, ⟨s.type, s.pos.1 - dist, s.pos.2, assets s.type⟩)] := by
          rw [spawnStep, if_neg (by rw [habsent]; intro hc; exact Bool.noConfusion hc),
            if_pos hwin, if_pos (spawnStep_type_check s)]
        show (rest.foldl (spawnStep dist w assets) (spawnStep dist w assets m s)).lookup s.id = _
        rw [hstep]
        refine foldl_spawn_lookup_some dist w assets rest _ s.id _ ?_
        rw [lookup_or, habsent]
        simp [List.lookup]
      · rw [if_neg hwin]
        have hstep : spawnStep dist w assets m s = m := by
          rw [spawnStep, if_neg (by rw [habsent]; intro hc; exact Bool.noConfusion hc),
            if_neg hwin]
        show (rest.foldl (spawnStep dist w assets) (spawnStep dist w assets m s)).lookup s.id = _
        rw [hstep]
        refine foldl_spawn_lookup_none dist w assets rest m s.id ?_ habsent
        intro u hu hc
        exact hnodup.1 (hc ▸ List.mem_map_of_mem ObstacleSpec.id hu)
    · have htid : t.id ≠ s.id := by
        intro hc
        exact hnodup.1 (hc ▸ List.mem_map_of_mem ObstacleSpec.id hmem')
      have habsent' : (spawnStep dist w assets m t).lookup s.id = none := by
        rcases spawnStep_shape dist w assets m t with hs | hs <;> rw [hs]
        · exact habsent
        · rw [lookup_or, habsent]
          have hb : (s.id == t.id) = false := beq_eq_false_iff_ne.mpr (Ne.symm htid)
          simp [List.lookup, hb]
      exact ih _ hmem' hnodup.2 habsent'

/-- C2 (amended): an obstacle spec whose id is not yet in the live mapping is
instantiated by `spawn_entities` exactly when its absolute world x lies in
the open interval `(distance, distance + 2*screen_width)` — the lower bound
`x = distance` is excluded, because the source tests `x > self.distance` —
and it is then placed at local x = `spec.x - distance` and keyed by its spec
id (obstacle ids are assumed pairwise distinct, as in `GAME_DATA`). -/
theorem spawn_window_characterization (g : Game) (s : ObstacleSpec)
    (hmem : s ∈ g.data.entities)
    (hnodup : (g.data.entities.map ObstacleSpec.id).Nodup)
    (habsent : g.entities.lookup s.id = none) :
    (Game.spawn_entities g).entities.lookup s.id =
      if s.pos.1 > g.distance ∧ s.pos.1 < g.distance + g.width * 2 then
        some (specObstacle g s)
      else none := by
  rw [Game.spawn_entities]
  exact foldl_spawn_lookup_char g.distance g.width g.assets g.data.entities
    g.entities s hmem hnodup habsent

/-- C2 counterexample: the unique spec of `exG2` is absent from the live
mapping and sits exactly at the lower bound `x = distance = 400` of the
claimed half-open spawn window `[distance, distance + 2*screen_width)`,
yet `spawn_entities` does not instantiate it: the source requires
`x > distance` strictly. -/
theorem spawn_lower_bound_cex :
    (∀ s ∈ exG2.data.entities, s.pos.1 = exG2.distance ∧ exG2.entities.lookup s.id = none) ∧
      (Game.spawn_entities exG2).entities.lookup 0 = none := by
  constructor
  · intro s hs
    simp [exG2] at hs
    subst hs
    exact ⟨rfl, rfl⟩
  · norm_num [Game.spawn_entities, exG2, spawnStep, List.lookup]

/-- Witness for `spawn_window_characterization` at `exG2b`. -/
theorem spawn_window_characterization_witness :
    (Game.spawn_entities exG2b).entities.lookup
        (⟨0, ObstacleType.rock, (401, 241)⟩ : ObstacleSpec).id =
      if (⟨0, ObstacleType.rock, (401, 241)⟩ : ObstacleSpec).pos.1 > exG2b.distance ∧
          (⟨0, ObstacleType.rock, (401, 241)⟩ : ObstacleSpec).pos.1 <
            exG2b.distance + exG2b.width * 2 then
        some (specObstacle exG2b ⟨0, ObstacleType.rock, (401, 241)⟩)
      else none :=
  spawn_window_characterization exG2b ⟨0, ObstacleType.rock, (401, 241)⟩
    (by simp [exG2b]) (by simp [exG2b]) rfl

theorem player_update_y (p : Player) (dt : ℚ) :
    (Player.update p dt).y = p.y + (p.vertical_velocity + 981 / 100 * dt * 10) * dt := by
  rw [Player.update, Player.drain, drainAux_y]
  rfl

/-- C10: `Game.update` terminates the session iff the collision check on the
post-prune state reports a hit; the player's y coordinate is never clamped —
with no obstacle specs and no live entities, a frame always completes and
integrates y freely, for arbitrarily large or negative y. -/
theorem game_ends_iff_collision :
    (∀ (g : Game) (dt : ℚ),
      (∃ c, Game.update g dt = Except.error c) ↔
        (Game.stage g dt).check_collision = true) ∧
      (∀ (g : Game) (dt : ℚ), g.data.entities = [] → g.entities = [] →
        ∃ g', Game.update g dt = Except.ok g' ∧
          g'.player.y = g.player.y + (g.player.vertical_velocity + 981 / 100 * dt * 10) * dt) := by
  constructor
  · intro g dt
    rw [game_update_run]
    by_cases h : (Game.stage g dt).check_collision
    · rw [if_pos h]
      exact ⟨fun _ => h, fun _ => ⟨1, rfl⟩⟩
    · rw [if_neg h]
      constructor
      · rintro ⟨c, hc⟩
        exact absurd hc (by simp)
      · intro hc
        exact absurd hc h
  · intro g dt hdata hlive
    have hstage : (Game.stage g dt).check_collision = false := by
      rw [Game.stage, Game.prune_entities, Game.update_entities, Game.spawn_entities,
        Game.stepDistance, Game.check_collision]
      simp only [hdata, hlive]
      rfl
    refine ⟨(Game.stage g dt).frameFinish dt, ?_, ?_⟩
    · rw [game_update_run, if_neg (by rw [hstage]; exact Bool.noConfusion)]
    · show ((Game.stage g dt).player.update dt).y = _
      have hp : (Game.stage g dt).player = g.player := rfl
      rw [hp, player_update_y]

/-- Witness for `game_ends_iff_collision`: the frame completes and the far
off-screen y is integrated, not clamped, and the run does not end. -/
theorem game_ends_iff_collision_witness :
    ∃ g', Game.update wG10 (1/100) = Except.ok g' ∧
      g'.player.y = wG10.player.y +
        (wG10.player.vertical_velocity + 981 / 100 * (1/100) * 10) * (1/100) :=
  game_ends_iff_collision.2 wG10 (1/100) rfl rfl

theorem player_drain_id (p : Player) (h0 : 0 ≤ p.time_acc) (h1 : p.time_acc < frame_time) :
    Player.drain p = p := by
  rw [Player.drain]
  have hfl : ⌊p.time_acc / frame_time⌋ = 0 := by
    rw [Int.floor_eq_zero_iff, Set.mem_Ico]
    exact ⟨div_nonneg h0 (le_of_lt frame_time_pos), (div_lt_one frame_time_pos).mpr h1⟩
  rw [hfl]
  rfl

theorem player_update_small (p : Player) (dt : ℚ) (h0 : 0 ≤ p.time_acc + dt)
    (h1 : p.time_acc + dt < frame_time) :
    Player.update p dt =
      ⟨p.x, p.y + (p.vertical_velocity + 981 / 100 * dt * 10) * dt,
        ⟨p.rect.left, p.y + (p.vertical_velocity + 981 / 100 * dt * 10) * dt⟩,
        p.frameIdx, p.cyclePos, p.time_acc + dt,
        p.vertical_velocity + 981 / 100 * dt * 10⟩ := by
  rw [Player.update]
  rw [player_drain_id _ h0 h1]
  rfl

theorem lookup_none_not_mem {β : Type} (k : ℕ) (v : β) (l : List (ℕ × β))
    (h : l.lookup k = none) : (k, v) ∉ l := by
  induction l with
  | nil => simp
  | cons a t ih =>
    rcases a with ⟨a, w⟩
    intro hmem
    by_cases hk : k = a
    · subst hk
      simp only [List.lookup, beq_self_eq_true] at h
      exact Option.noConfusion h
    · have hb : (k == a) = false := beq_eq_false_iff_ne.mpr hk
      simp only [List.lookup, hb] at h
      rcases List.mem_cons.mp hmem with heq | hmem'
      · exact hk (congrArg Prod.fst heq)
      · exact ih h hmem'

theorem mem_imp_lookup_isSome {β : Type} (k : ℕ) (v : β) (l : List (ℕ × β))
    (h : (k, v) ∈ l) : (l.lookup k).isSome := by
  induction l with
  | nil => simp at h
  | cons a t ih =>
    rcases a with ⟨a, w⟩
    by_cases hk : k = a
    · subst hk
      simp [List.lookup]
    · have hb : (k == a) = false := beq_eq_false_iff_ne.mpr hk
      simp only [List.lookup, hb]
      rcases List.mem_cons.mp h with heq | hmem'
      · exact absurd (congrArg Prod.fst heq) hk
      · exact ih hmem'

theorem mem_nodup_eq {β : Type} (k : ℕ) (a b : β) (l : List (ℕ × β))
    (hnd : (l.map Prod.fst).Nodup) (ha : (k, a) ∈ l) (hb : (k, b) ∈ l) : a = b := by
  induction l with
  | nil => simp at ha
  | cons p t ih =>
    rw [List.map_cons, List.nodup_cons] at hnd
    rcases List.mem_cons.mp ha with haeq | ha'
    · rcases List.mem_cons.mp hb with hbeq | hb'
      · rw [← haeq] at hbeq
        exact (Prod.mk.injEq _ _ _ _ ▸ hbeq.symm).2
      · exfalso
        apply hnd.1
        rw [show p.1 = k from (congrArg Prod.fst haeq).symm]
        exact List.mem_map_of_mem Prod.fst hb'
    · rcases List.mem_cons.mp hb with hbeq | hb'
      · exfalso
        apply hnd.1
        rw [show p.1 = k from (congrArg Prod.fst hbeq).symm]
        exact List.mem_map_of_mem Prod.fst ha'
      · exact ih hnd.2 ha' hb'

theorem lookup_filter_none_of_pred {β : Type} (q : ℕ × β → Bool) (k : ℕ)
    (l : List (ℕ × β)) (h : ∀ v, (k, v) ∈ l → q (k, v) = false) :
    (l.filter q).lookup k = none := by
  induction l with
  | nil => rfl
  | cons p t ih =>
    rcases p with ⟨a, w⟩
    have ih' := ih (fun v hv => h v (by simp [hv]))
    by_cases hq : q (a, w) = true
    · rw [List.filter_cons_of_pos hq]
      by_cases hk : k = a
      · subst hk
        exact absurd hq (by rw [h w (by simp)]; exact Bool.noConfusion)
      · have hb : (k == a) = false := beq_eq_false_iff_ne.mpr hk
        simp only [List.lookup, hb]
        exact ih'
    · rw [List.filter_cons_of_neg (by simpa using hq)]
      exact ih'

theorem lookup_filter_none {β : Type} (q : ℕ × β → Bool) (k : ℕ)
    (l : List (ℕ × β)) (h : l.lookup k = none) : (l.filter q).lookup k = none :=
  lookup_filter_none_of_pred q k l
    (fun v hv => absurd hv (lookup_none_not_mem k v l h))

theorem lookup_shift (c : ℚ) (k : ℕ) (l : List (ℕ × Obstacle)) :
    (l.map fun p => (p.1, (⟨p.2.type, p.2.x - c, p.2.y, p.2.colliders⟩ : Obstacle))).lookup k =
      (l.lookup k).map fun o => (⟨o.type, o.x - c, o.y, o.colliders⟩ : Obstacle) := by
  induction l with
  | nil => rfl
  | cons p t ih =>
    rcases p with ⟨a, w⟩
    by_cases hk : k = a
    · subst hk
      simp [List.lookup]
    · have hb : (k == a) = false := beq_eq_false_iff_ne.mpr hk
      simp only [List.map_cons, List.lookup, hb]
      exact ih

theorem foldl_spawn_mem_key (dist w : ℚ) (assets : ObstacleType → List Circle)
    (l : List ObstacleSpec) (m : List (ℕ × Obstacle)) (k : ℕ) (v : Obstacle)
    (hk : (m.lookup k).isSome) (h : (k, v) ∈ l.foldl (spawnStep dist w assets) m) :
    (k, v) ∈ m := by
  induction l generalizing m with
  | nil => exact h
  | cons s rest ih =>
    have hk' : ((spawnStep dist w assets m s).lookup k).isSome := by
      rcases spawnStep_shape dist w assets m s with hs | hs <;> rw [hs]
      · exact hk
      · rw [lookup_or]
        obtain ⟨u, hu⟩ := Option.isSome_iff_exists.mp hk
        rw [hu]
        rfl
    have hmem' : (k, v) ∈ spawnStep dist w assets m s := ih _ hk' h
    rw [spawnStep] at hmem'
    split at hmem'
    · exact hmem'
    · rename_i hnone
      split at hmem'
      · split at hmem'
        · rcases List.mem_append.mp hmem' with hin | hsing
          · exact hin
          · exfalso
            have hks : k = s.id := congrArg Prod.fst (List.mem_singleton.mp hsing)
            rw [hks] at hk
            exact hnone hk
        · exact hmem'
      · exact hmem'

theorem foldl_spawn_lookup_none_blocked (dist w : ℚ)
    (assets : ObstacleType → List Circle) (l : List ObstacleSpec)
    (m : List (ℕ × Obstacle)) (k : ℕ)
    (hbl : ∀ s ∈ l, s.id = k → ¬(s.pos.1 > dist ∧ s.pos.1 < dist + w * 2))
    (hm : m.lookup k = none) :
    (l.foldl (spawnStep dist w assets) m).lookup k = none := by
  induction l generalizing m with
  | nil => exact hm
  | cons s rest ih =>
    refine ih _ (fun t ht => hbl t (by simp [ht])) ?_
    by_cases hid : s.id = k
    · have hwin := hbl s (by simp) hid
      have hsome : (List.lookup s.id m).isSome = false := by rw [hid, hm]; rfl
      have hstep : spawnStep dist w assets m s = m := by
        simp [spawnStep, hsome, hwin]
      rw [hstep]
      exact hm
    · rcases spawnStep_shape dist w assets m s with hs | hs <;> rw [hs]
      · exact hm
      · rw [lookup_or, hm]
        have hb : (k == s.id) = false := beq_eq_false_iff_ne.mpr (fun hc => hid hc.symm)
        simp [List.lookup, hb]

theorem update_keeps_absent (g : Game) (dt : ℚ) (k : ℕ) (g' : Game)
    (habs : g.entities.lookup k = none)
    (hblock : ∀ s ∈ g.data.entities, s.id = k → s.pos.1 ≤ g.distance)
    (hsc : 0 ≤ g.data.scroll_speed) (hdt : 0 ≤ dt)
    (hok : Game.update g dt = Except.ok g') :
    g'.entities.lookup k = none ∧ g'.data = g.data ∧ g.distance ≤ g'.distance := by
  rw [game_update_run] at hok
  by_cases hc : (Game.stage g dt).check_collision
  · rw [if_pos hc] at hok
    exact absurd hok (by simp)
  · rw [if_neg hc] at hok
    have hg' : g' = (Game.stage g dt).frameFinish dt := (Except.ok.inj hok).symm
    subst hg'
    have hmono : g.distance ≤ g.distance + dt * g.data.scroll_speed :=
      le_add_of_nonneg_right (mul_nonneg hdt hsc)
    refine ⟨?_, rfl, hmono⟩
    show ((((g.stepDistance dt).spawn_entities).update_entities dt).prune_entities).entities.lookup k = none
    have hsp : ((g.stepDistance dt).spawn_entities).entities.lookup k = none := by
      show (g.data.entities.foldl
        (spawnStep (g.distance + dt * g.data.scroll_speed) g.width g.assets) g.entities).lookup k = none
      refine foldl_spawn_lookup_none_blocked _ _ _ _ _ _ ?_ habs
      intro s hs hid hwin
      have := hblock s hs hid
      linarith [hwin.1]
    have hup : (((g.stepDistance dt).spawn_entities).update_entities dt).entities.lookup k = none := by
      show ((((g.stepDistance dt).spawn_entities).entities.map
        fun p => (p.1, (⟨p.2.type, p.2.x - g.data.scroll_speed * dt, p.2.y, p.2.colliders⟩ : Obstacle))).lookup k) = none
      rw [lookup_shift, hsp]
      rfl
    exact lookup_filter_none _ _ _ hup

theorem update_removes (g : Game) (dt : ℚ) (k : ℕ) (o : Obstacle) (g' : Game)
    (hmem : (k, o) ∈ g.entities) (hnodup : (g.entities.map Prod.fst).Nodup)
    (hx : o.x < -g.width) (hsc : 0 ≤ g.data.scroll_speed) (hdt : 0 ≤ dt)
    (hok : Game.update g dt = Except.ok g') :
    g'.entities.lookup k = none ∧ g'.data = g.data ∧ g.distance ≤ g'.distance := by
  rw [game_update_run] at hok
  by_cases hc : (Game.stage g dt).check_collision
  · rw [if_pos hc] at hok
    exact absurd hok (by simp)
  · rw [if_neg hc] at hok
    have hg' : g' = (Game.stage g dt).frameFinish dt := (Except.ok.inj hok).symm
    subst hg'
    have hmono : g.distance ≤ g.distance + dt * g.data.scroll_speed :=
      le_add_of_nonneg_right (mul_nonneg hdt hsc)
    refine ⟨?_, rfl, hmono⟩
    show ((((g.stepDistance dt).spawn_entities).update_entities dt).prune_entities).entities.lookup k = none
    have hkey : (g.entities.lookup k).isSome := mem_imp_lookup_isSome k o g.entities hmem
    refine lookup_filter_none_of_pred _ _ _ ?_
    intro v hv
    have hv' := hv
    rw [show (((g.stepDistance dt).spawn_entities).update_entities dt).entities =
        (((g.stepDistance dt).spawn_entities).entities.map
          fun p => (p.1, (⟨p.2.type, p.2.x - g.data.scroll_speed * dt, p.2.y, p.2.colliders⟩ : Obstacle)))
      from rfl] at hv'
    obtain ⟨⟨k', u⟩, hu, hequ⟩ := List.mem_map.mp hv'
    have hk' : k' = k := congrArg Prod.fst hequ
    rw [hk'] at hu
    have hval : v = ⟨u.type, u.x - g.data.scroll_speed * dt, u.y, u.colliders⟩ :=
      ((Prod.mk.injEq _ _ _ _).mp hequ).2.symm
    have humem : (k, u) ∈ g.entities := by
      refine foldl_spawn_mem_key (g.distance + dt * g.data.scroll_speed) g.width g.assets
        g.data.entities g.entities k u hkey ?_
      exact hu
    have huo : u = o := mem_nodup_eq k u o g.entities hnodup humem hmem
    have hxv : v.x < -g.width := by
      rw [hval, huo]
      have : 0 ≤ g.data.scroll_speed * dt := mul_nonneg hsc hdt
      show o.x - g.data.scroll_speed * dt < -g.width
      linarith
    show (!decide (v.x < -(((g.stepDistance dt).spawn_entities).update_entities dt).width)) = false
    have hwidth : (((g.stepDistance dt).spawn_entities).update_entities dt).width = g.width := rfl
    rw [hwidth, decide_eq_true hxv]
    rfl

theorem updates_keep_absent (dts : List ℚ) (g : Game) (k : ℕ)
    (habs : g.entities.lookup k = none)
    (hblock : ∀ s ∈ g.data.entities, s.id = k → s.pos.1 ≤ g.distance)
    (hsc : 0 ≤ g.data.scroll_speed)
    (hdts : ∀ dt ∈ dts, 0 ≤ dt) :
    ∀ g', Game.updates g dts = Except.ok g' → g'.entities.lookup k = none := by
  induction dts generalizing g with
  | nil =>
    intro g' hok
    rw [Game.updates] at hok
    rw [← Except.ok.inj hok]
    exact habs
  | cons dt rest ih =>
    intro g' hok
    rw [Game.updates] at hok
    rcases hupd : Game.update g dt with e | g1
    · rw [hupd] at hok
      exact absurd hok (by simp)
    · rw [hupd] at hok
      obtain ⟨habs1, hdata1, hdist1⟩ :=
        update_keeps_absent g dt k g1 habs hblock hsc (hdts dt (by simp)) hupd
      refine ih g1 habs1 ?_ ?_ (fun d hd => hdts d (by simp [hd])) g' hok
      · intro s hs hid
        rw [hdata1] at hs
        exact le_trans (hblock s hs hid) hdist1
      · rw [hdata1]
        exact hsc

/-- C3 (amended): once a live entity's local x is below `-screen_width` AND
its spec's world x no longer exceeds the travelled `distance` — which holds
in every run whose frames each advance `scroll_speed*dt` by no more than the
spawn window, but can fail when a single huge frame spawns and immediately
overshoots an obstacle — it is removed by `prune_entities`, and on every
subsequent frame (distance being monotonically non-decreasing) its id is
absent from the live mapping and never re-spawned by `spawn_entities`. -/
theorem prune_final (g : Game) (k : ℕ) (o : Obstacle)
    (hmem : (k, o) ∈ g.entities)
    (hnodup : (g.entities.map Prod.fst).Nodup)
    (hx : o.x < -g.width)
    (hblock : ∀ s ∈ g.data.entities, s.id = k → s.pos.1 ≤ g.distance)
    (hsc : 0 ≤ g.data.scroll_speed) :
    (g.prune_entities).entities.lookup k = none ∧
      ∀ (dt : ℚ) (rest : List ℚ) (g' : Game), 0 ≤ dt → (∀ d ∈ rest, 0 ≤ d) →
        Game.updates g (dt :: rest) = Except.ok g' → g'.entities.lookup k = none := by
  constructor
  · refine lookup_filter_none_of_pred _ _ _ ?_
    intro v hv
    have hvo : v = o := mem_nodup_eq k v o g.entities hnodup hv hmem
    show (!decide (v.x < -g.width)) = false
    rw [hvo, decide_eq_true hx]
    rfl
  · intro dt rest g' hdt hrest hok
    rw [Game.updates] at hok
    rcases hupd : Game.update g dt with e | g1
    · rw [hupd] at hok
      exact absurd hok (by simp)
    · rw [hupd] at hok
      obtain ⟨habs1, hdata1, hdist1⟩ :=
        update_removes g dt k o g1 hmem hnodup hx hsc hdt hupd
      refine updates_keep_absent rest g1 k habs1 ?_ ?_ hrest g' hok
      · intro s hs hid
        rw [hdata1] at hs
        exact le_trans (hblock s hs hid) hdist1
      · rw [hdata1]
        exact hsc

theorem wG3_stage_entities : (Game.stage wG3 0).entities = [] := by
  show List.filter _ (List.map _ (List.foldl _ _ _)) = []
  norm_num [wG3, spawnStep, List.lookup, Game.stepDistance, Game.spawn_entities,
    Game.update_entities]

theorem wG3_update : Game.update wG3 0 = Except.ok wG3' := by
  have hcc : (Game.stage wG3 0).check_collision = false := by
    rw [Game.check_collision, wG3_stage_entities]
    rfl
  rw [game_update_run, if_neg (by rw [hcc]; exact Bool.false_ne_true)]
  congr 1
  ext : 1
  · rfl
  · rfl
  · show wG3.distance + 0 * wG3.data.scroll_speed = wG3'.distance
    norm_num [wG3, wG3']
  · rfl
  · show (Game.stage wG3 0).entities = wG3'.entities
    rw [wG3_stage_entities]
    rfl
  · show Background.update wG3.background 0 = wG3'.background
    norm_num [wG3, wG3', Background.update]
  · show Player.update playerInit 0 = wG3'.player
    rw [player_update_small _ _ (by norm_num [playerInit]) (by norm_num [playerInit, frame_time])]
    norm_num [playerInit, wG3']
  · rfl

/-- Witness for `prune_final` at `wG3`: the entity is removed by
`prune_entities` and still absent after the frame sequence `[0]`. -/
theorem prune_final_witness :
    (wG3.prune_entities).entities.lookup 0 = none ∧ wG3'.entities.lookup 0 = none := by
  have happ := prune_final wG3 0 ⟨ObstacleType.rock, -900, 0, []⟩
    (by simp [wG3]) (by simp [wG3]) (by norm_num [wG3])
    (by
      intro s hs hid
      simp only [wG3, List.mem_singleton] at hs
      rw [hs]
      norm_num [wG3])
    (by norm_num [wG3])
  refine ⟨happ.1, ?_⟩
  refine happ.2 0 [] wG3' le_rfl (by intro d hd; exact absurd hd (List.not_mem_nil d)) ?_
  show (match Game.update wG3 0 with
    | Except.error e => Except.error e
    | Except.ok g1 => Game.updates g1 []) = Except.ok wG3'
  rw [wG3_update]
  rfl

theorem exG3_spawned :
    (((exG3.stepDistance (6/2500)).spawn_entities).update_entities (6/2500)).entities =
      [(0, ⟨ObstacleType.rock, -900, 0, [⟨0, 0, 1⟩]⟩)] := by
  show List.map _ (List.foldl _ _ _) = _
  norm_num [exG3, spawnStep, List.lookup, Game.stepDistance, Game.spawn_entities]

theorem exG3_stage_entities : (Game.stage exG3 (6/2500)).entities = [] := by
  show List.filter _ ((((exG3.stepDistance (6/2500)).spawn_entities).update_entities (6/2500)).entities) = []
  rw [exG3_spawned]
  norm_num [exG3, Game.stepDistance, Game.spawn_entities, Game.update_entities]

theorem exG3_frame1 : Game.update exG3 (6/2500) = Except.ok exG3mid := by
  have hcc : (Game.stage exG3 (6/2500)).check_collision = false := by
    rw [Game.check_collision, exG3_stage_entities]
    rfl
  rw [game_update_run, if_neg (by rw [hcc]; exact Bool.false_ne_true)]
  congr 1
  ext : 1
  · rfl
  · rfl
  · show exG3.distance + 6/2500 * exG3.data.scroll_speed = exG3mid.distance
    norm_num [exG3, exG3mid]
  · rfl
  · show (Game.stage exG3 (6/2500)).entities = exG3mid.entities
    rw [exG3_stage_entities]
    rfl
  · show Background.update exG3.background (6/2500) = exG3mid.background
    norm_num [exG3, exG3mid, Background.update]
  · show Player.update playerInit (6/2500) = exG3mid.player
    rw [player_update_small _ _ (by norm_num [playerInit]) (by norm_num [playerInit, frame_time])]
    norm_num [playerInit, exG3mid]
  · rfl

theorem exG3mid_stage_entities :
    (Game.stage exG3mid (1/1000000)).entities =
      [(0, ⟨ObstacleType.rock, 1498, 0, [⟨0, 0, 1⟩]⟩)] := by
  show List.filter _ (List.map _ (List.foldl _ _ _)) = _
  norm_num [exG3mid, spawnStep, List.lookup, Game.stepDistance, Game.spawn_entities,
    Game.update_entities]

theorem stage_player (g : Game) (dt : ℚ) : (Game.stage g dt).player = g.player := rfl

theorem exG3mid_no_hit : (Game.stage exG3mid (1/1000000)).check_collision = false := by
  rw [Game.check_collision, exG3mid_stage_entities]
  norm_num [check_circle_collision, playerCollider, stage_player, exG3mid]

/-- C3 counterexample: in `exG3` the first frame (`dt = 6/2500`, distance
strictly increasing by 2400) spawns obstacle 0 at local x 1500, shifts it to
x = -900 < -800 = -width — a live entity below `-screen_width` — and
`prune_entities` removes it within that same frame; yet the very next frame
(`dt = 1/1000000`, distance still increasing) finds the spec's world x 3900
again inside the spawn window (distance 2401) and re-spawns id 0.  So prune
is not final under monotonically non-decreasing distance alone. -/
theorem prune_respawn_cex :
    ((((exG3.stepDistance (6/2500)).spawn_entities).update_entities (6/2500)).entities.lookup 0 =
        some ⟨ObstacleType.rock, -900, 0, [⟨0, 0, 1⟩]⟩) ∧
      ((-900 : ℚ) < -exG3.width) ∧
      ((Game.stage exG3 (6/2500)).entities.lookup 0 = none) ∧
      (Game.update exG3 (6/2500) = Except.ok exG3mid) ∧
      ((Game.update exG3mid (1/1000000)).map (fun g => (g.entities.lookup 0).isSome) =
        Except.ok true) := by
  refine ⟨?_, ?_, ?_, exG3_frame1, ?_⟩
  · rw [exG3_spawned]
    rfl
  · norm_num [exG3]
  · rw [exG3_stage_entities]
    rfl
  · rw [game_update_run, if_neg (by rw [exG3mid_no_hit]; exact Bool.false_ne_true)]
    show Except.ok ((((Game.stage exG3mid (1/1000000)).frameFinish (1/1000000)).entities.lookup 0).isSome) = Except.ok true
    have hent : ((Game.stage exG3mid (1/1000000)).frameFinish (1/1000000)).entities =
        [(0, ⟨ObstacleType.rock, 1498, 0, [⟨0, 0, 1⟩]⟩)] := exG3mid_stage_entities
    rw [hent]
    rfl

set_option maxRecDepth 4000 in
theorem exMask_segments : segmentsOf 20 exMask = exSegs := by decide

theorem exMask_colliders : collidersOf 20 exMask = some exColl := by
  rw [collidersOf, exMask_segments]
  have hchunks : chunkify (20 / 10) exSegs =
      [(some 0, some 2), (some 8, some 10)] ::
        List.replicate 9 [(some 5, some 5), (some 5, some 5)] := by decide
  have hlen : exSegs.length = 20 := by decide
  rw [hchunks, hlen]
  norm_num [bandsOf, bandOf, seqOpt, exColl, List.replicate]

/-- C8 counterexample: for the 11x20 mask `exMask` the derivation produces
10 bands (chunks of `floor(H/10) = 2` rows each), not `floor(H/10) = 2`
bands as claimed; and the first band's radius is 5 — half of the combined
span `max_x - min_x = 10 - 0` over its two rows — not half of the maximum
per-row span (both rows span 2 pixels, so the claim predicts radius 1). -/
theorem colliders_band_cex :
    (collidersOf 20 exMask).map List.length = some 10 ∧ (10 : ℕ) ≠ 20 / 10 ∧
      ((collidersOf 20 exMask).bind fun l => l[0]?.map Circle.r) = some 5 ∧
      (5 : ℚ) ≠ (2 : ℚ) / 2 := by
  rw [exMask_colliders]
  refine ⟨rfl, by norm_num, rfl, by norm_num⟩

theorem procCell_length (x y : ℕ) (a : Bool) (segs : List Seg) :
    (procCell x y a segs).length = segs.length := by
  rw [procCell]
  split
  · split
    · rw [List.length_set]
    · rfl
  · rfl

theorem procColumn_length (x : ℕ) (col : List Bool) : ∀ (y : ℕ) (segs : List Seg),
    (procColumn x y col segs).length = segs.length := by
  induction col with
  | nil => intro y segs; rfl
  | cons a rest ih =>
    intro y segs
    show (procColumn x (y + 1) rest (procCell x y a segs)).length = segs.length
    rw [ih, procCell_length]

theorem segCols_length (cols : List (List Bool)) : ∀ (x : ℕ) (segs : List Seg),
    (segCols x cols segs).length = segs.length := by
  induction cols with
  | nil => intro x segs; rfl
  | cons c cs ih =>
    intro x segs
    show (segCols (x + 1) cs (procColumn x 0 c segs)).length = segs.length
    rw [ih, procColumn_length]

theorem segmentsOf_length (height : ℕ) (cols : List (List Bool)) :
    (segmentsOf height cols).length = height := by
  rw [segmentsOf, segCols_length, List.length_replicate]

theorem procCell_get? (x y : ℕ) (a : Bool) (segs : List Seg) (j : ℕ) :
    (procCell x y a segs)[j]? =
      if j = y ∧ a then (segs[j]?).map fun s => (some (s.1.getD x), some x)
      else segs[j]? := by
  rw [procCell]
  by_cases ha : a
  · rw [if_pos ha]
    split
    · rename_i s hsy
      rw [List.getElem?_set]
      by_cases hjy : j = y
      · subst hjy
        have hlt : j < segs.length := (List.getElem?_eq_some.mp hsy).1
        rw [if_pos rfl, if_pos hlt, if_pos ⟨rfl, ha⟩, hsy]
        rfl
      · rw [if_neg (fun hc => hjy hc.symm), if_neg (fun hc => hjy hc.1)]
    · rename_i hsy
      by_cases hjy : j = y
      · subst hjy
        rw [if_pos ⟨rfl, ha⟩, hsy]
        rfl
      · rw [if_neg (fun hc => hjy hc.1)]
  · rw [if_neg ha, if_neg (fun hc => ha hc.2)]

theorem procColumn_get? (x : ℕ) (col : List Bool) : ∀ (i : ℕ) (segs : List Seg) (j : ℕ),
    (procColumn x i col segs)[j]? =
      if i ≤ j ∧ (col[j - i]?.getD false) then
        (segs[j]?).map fun s => (some (s.1.getD x), some x)
      else segs[j]? := by
  induction col with
  | nil =>
    intro i segs j
    rw [if_neg (by rintro ⟨_, hc⟩; simp at hc)]
    rfl
  | cons a rest ih =>
    intro i segs j
    show (procColumn x (i + 1) rest (procCell x i a segs))[j]? = _
    rw [ih]
    rcases Nat.lt_trichotomy j i with hji | hji | hji
    · rw [if_neg (by rintro ⟨hc, _⟩; omega), if_neg (by rintro ⟨hc, _⟩; omega)]
      rw [procCell_get?, if_neg (by rintro ⟨rfl, _⟩; omega)]
    · subst hji
      rw [if_neg (by rintro ⟨hc, _⟩; omega)]
      rw [procCell_get?]
      have hcol : ((a :: rest)[j - j]?).getD false = a := by simp
      by_cases ha : a
      · rw [if_pos ⟨rfl, ha⟩, if_pos ⟨le_refl j, by rw [hcol]; exact ha⟩]
      · rw [if_neg (by rintro ⟨_, hc⟩; exact ha hc),
          if_neg (by rintro ⟨_, hc⟩; rw [hcol] at hc; exact ha hc)]
    · have h2 : (procCell x i a segs)[j]? = segs[j]? := by
        rw [procCell_get?, if_neg (by rintro ⟨rfl, _⟩; omega)]
      rw [h2]
      have hcol : (a :: rest)[j - i]? = rest[j - (i + 1)]? := by
        have hji' : j - i = (j - (i + 1)) + 1 := by omega
        rw [hji']
        exact List.getElem?_cons_succ
      rw [hcol]
      by_cases hc : (rest[j - (i + 1)]?.getD false)
      · rw [if_pos ⟨by omega, hc⟩, if_pos ⟨by omega, hc⟩]
      · rw [if_neg (by rintro ⟨_, hcc⟩; exact hc hcc),
          if_neg (by rintro ⟨_, hcc⟩; exact hc hcc)]

theorem foldl_min_le_init (a : ℕ) (as : List ℕ) : as.foldl min a ≤ a := by
  induction as generalizing a with
  | nil => exact le_refl a
  | cons b bs ih => exact le_trans (ih (min a b)) (min_le_left a b)

theorem foldl_max_lt_bound (M a : ℕ) (as : List ℕ) (ha : a < M)
    (has : ∀ b ∈ as, b < M) : as.foldl max a < M := by
  induction as generalizing a with
  | nil => exact ha
  | cons b bs ih =>
    exact ih (max a b) (max_lt ha (has b (by simp))) (fun c hc => has c (by simp [hc]))

theorem rowOpaque_lt (cols : List (List Bool)) (y : ℕ) :
    ∀ b ∈ rowOpaque cols y, b < cols.length := by
  intro b hb
  rw [rowOpaque] at hb
  exact List.mem_range.mp (List.mem_filter.mp hb).1

theorem rowOpaque_append (pre : List (List Bool)) (col : List Bool) (y : ℕ) :
    rowOpaque (pre ++ [col]) y =
      rowOpaque pre y ++ (if (col[y]?.getD false) then [pre.length] else []) := by
  rw [rowOpaque, rowOpaque]
  have h1 : (pre ++ [col]).length = pre.length + 1 := by simp
  rw [h1, List.range_succ, List.filter_append]
  congr 1
  · refine List.filter_congr ?_
    intro v hv
    have hvlt : v < pre.length := List.mem_range.mp hv
    rw [maskAt, maskAt, List.getElem?_append_left hvlt]
  · have hmask : maskAt (pre ++ [col]) pre.length y = (col[y]?.getD false) := by
      rw [maskAt, List.getElem?_append_right (le_refl pre.length)]
      simp
    by_cases hb : (col[y]?.getD false)
    · rw [if_pos hb]
      simp [List.filter, hmask, hb]
    · rw [if_neg hb]
      simp [List.filter, hmask, hb]

theorem rowSpan_append (pre : List (List Bool)) (col : List Bool) (y : ℕ) :
    rowSpan (pre ++ [col]) y =
      if (col[y]?.getD false) then
        some (match rowSpan pre y with
          | none => (pre.length, pre.length)
          | some pr => (pr.1, pre.length))
      else rowSpan pre y := by
  rw [rowSpan, rowSpan, rowOpaque_append]
  by_cases hbit : (col[y]?.getD false)
  · rw [if_pos hbit, if_pos hbit]
    cases hro : rowOpaque pre y with
    | nil => simp
    | cons a as =>
      have hbound : ∀ b ∈ a :: as, b < pre.length := by
        intro b hb
        exact rowOpaque_lt pre y b (hro ▸ hb)
      have hminlt : as.foldl min a < pre.length :=
        lt_of_le_of_lt (foldl_min_le_init a as) (hbound a (by simp))
      have hmaxlt : as.foldl max a < pre.length :=
        foldl_max_lt_bound pre.length a as (hbound a (by simp))
          (fun b hb => hbound b (by simp [hb]))
      show some ((as ++ [pre.length]).foldl min a, (as ++ [pre.length]).foldl max a) =
        some (as.foldl min a, pre.length)
      rw [List.foldl_append, List.foldl_append]
      show some (min (as.foldl min a) pre.length, max (as.foldl max a) pre.length) =
        some (as.foldl min a, pre.length)
      rw [min_eq_left (le_of_lt hminlt), max_eq_right (le_of_lt hmaxlt)]
  · rw [if_neg hbit, if_neg hbit]
    simp

theorem rowSpan_nil (y : ℕ) : rowSpan ([] : List (List Bool)) y = none := rfl

theorem procColumn_spans (height : ℕ) (pre : List (List Bool)) (col : List Bool) :
    procColumn pre.length 0 col ((List.range height).map fun y => optPair (rowSpan pre y)) =
      (List.range height).map fun y => optPair (rowSpan (pre ++ [col]) y) := by
  refine List.ext_getElem? ?_
  intro j
  rw [procColumn_get?]
  by_cases hjh : j < height
  · have hmap : ∀ (f : ℕ → Seg), ((List.range height).map f)[j]? = some (f j) := by
      intro f
      rw [List.getElem?_map, List.getElem?_range hjh]
      rfl
    rw [hmap, hmap]
    by_cases hbit : (col[j - 0]?.getD false)
    · rw [if_pos ⟨Nat.zero_le j, hbit⟩]
      have hbit' : (col[j]?.getD false) := by simpa using hbit
      rw [show optPair (rowSpan (pre ++ [col]) j) =
          (some ((optPair (rowSpan pre j)).1.getD pre.length), some pre.length) from ?_]
      · rfl
      · rw [rowSpan_append, if_pos hbit']
        cases hsp : rowSpan pre j with
        | none => rfl
        | some pr => rfl
    · rw [if_neg (by rintro ⟨_, hc⟩; exact hbit hc)]
      rw [rowSpan_append, if_neg (by simpa using hbit)]
  · have hmap : ∀ (f : ℕ → Seg), ((List.range height).map f)[j]? = none := by
      intro f
      rw [List.getElem?_map]
      rw [List.getElem?_eq_none (by simpa using Nat.le_of_not_lt hjh)]
      rfl
    rw [hmap, hmap]
    split <;> rfl

theorem segCols_spans (height : ℕ) (post : List (List Bool)) :
    ∀ (pre : List (List Bool)),
      segCols pre.length post ((List.range height).map fun y => optPair (rowSpan pre y)) =
        (List.range height).map fun y => optPair (rowSpan (pre ++ post) y) := by
  induction post with
  | nil =>
    intro pre
    show (List.range height).map _ = _
    rw [List.append_nil]
  | cons col cs ih =>
    intro pre
    show segCols (pre.length + 1) cs
      (procColumn pre.length 0 col ((List.range height).map fun y => optPair (rowSpan pre y))) = _
    rw [procColumn_spans]
    have hlen : pre.length + 1 = (pre ++ [col]).length := by simp
    rw [hlen, ih (pre ++ [col])]
    have happ : (pre ++ [col]) ++ cs = pre ++ (col :: cs) := by
      rw [List.append_assoc]
      rfl
    rw [happ]

theorem segmentsOf_eq (height : ℕ) (cols : List (List Bool)) :
    segmentsOf height cols = (List.range height).map fun y => optPair (rowSpan cols y) := by
  have hbase : List.replicate height ((none, none) : Seg) =
      (List.range height).map fun y => optPair (rowSpan ([] : List (List Bool)) y) := by
    have hfun : (fun y : ℕ => optPair (rowSpan ([] : List (List Bool)) y)) =
        fun _ : ℕ => ((none, none) : Seg) := by
      funext y
      rfl
    rw [hfun, List.map_const', List.length_range]
  rw [segmentsOf, show (0 : ℕ) = ([] : List (List Bool)).length from rfl, hbase,
    segCols_spans height cols []]
  rfl

theorem chunkifyAux_map {α β : Type} (g : α → β) (k : ℕ) : ∀ (fuel : ℕ) (l : List α),
    chunkifyAux k fuel (l.map g) = (chunkifyAux k fuel l).map (List.map g) := by
  intro fuel
  induction fuel with
  | zero => intro l; cases l <;> rfl
  | succ fuel ih =>
    intro l
    cases l with
    | nil => rfl
    | cons a as =>
      show ((a :: as).map g).take k :: chunkifyAux k fuel (((a :: as).map g).drop k) = _
      rw [← List.map_take, ← List.map_drop, ih]
      rfl

theorem chunkify_map {α β : Type} (g : α → β) (k : ℕ) (l : List α) :
    chunkify k (l.map g) = (chunkify k l).map (List.map g) := by
  rw [chunkify, chunkify]
  by_cases hk : k = 0
  · rw [if_pos hk, if_pos hk]
    rfl
  · rw [if_neg hk, if_neg hk, List.length_map, chunkifyAux_map]

theorem chunkifyAux_flatten {α : Type} (k : ℕ) (hk : k ≠ 0) : ∀ (fuel : ℕ) (l : List α),
    l.length ≤ fuel → (chunkifyAux k fuel l).flatten = l := by
  intro fuel
  induction fuel with
  | zero =>
    intro l hl
    rw [List.length_eq_zero.mp (Nat.le_zero.mp hl)]
    rfl
  | succ fuel ih =>
    intro l hl
    cases l with
    | nil => rfl
    | cons a as =>
      show (((a :: as).take k) :: chunkifyAux k fuel ((a :: as).drop k)).flatten = a :: as
      rw [List.flatten_cons, ih ((a :: as).drop k) (by
        rw [List.length_drop]
        simp only [List.length_cons] at hl ⊢
        omega)]
      exact List.take_append_drop k (a :: as)

theorem chunkify_flatten {α : Type} (k : ℕ) (hk : k ≠ 0) (l : List α) :
    (chunkify k l).flatten = l := by
  rw [chunkify, if_neg hk]
  exact chunkifyAux_flatten k hk l.length l (le_refl _)

theorem chunkifyAux_ne_nil {α : Type} (k : ℕ) (hk : k ≠ 0) : ∀ (fuel : ℕ) (l : List α),
    ∀ chunk ∈ chunkifyAux k fuel l, chunk ≠ [] := by
  intro fuel
  induction fuel with
  | zero => intro l chunk hc; simp [chunkifyAux] at hc
  | succ fuel ih =>
    intro l chunk hc
    cases l with
    | nil => simp [chunkifyAux] at hc
    | cons a as =>
      rcases List.mem_cons.mp hc with rfl | hmem
      · cases k with
        | zero => exact absurd rfl hk
        | succ k' => simp [List.take]
      · exact ih ((a :: as).drop k) chunk hmem

theorem chunkify_ne_nil {α : Type} (k : ℕ) (hk : k ≠ 0) (l : List α) :
    ∀ chunk ∈ chunkify k l, chunk ≠ [] := by
  rw [chunkify, if_neg hk]
  exact chunkifyAux_ne_nil k hk l.length l

theorem seqOpt_map_some {α : Type} (l : List α) : seqOpt (l.map some) = some l := by
  induction l with
  | nil => rfl
  | cons a as ih =>
    show (seqOpt (as.map some)).map (a :: ·) = some (a :: as)
    rw [ih]
    rfl

theorem seqOpt_eq_some {α : Type} : ∀ (l : List (Option α)) (l' : List α),
    seqOpt l = some l' → l = l'.map some := by
  intro l
  induction l with
  | nil =>
    intro l' h
    rw [← Option.some.inj h]
    rfl
  | cons o rest ih =>
    intro l' h
    cases o with
    | none => exact absurd h (by rw [seqOpt]; simp)
    | some a =>
      rw [seqOpt] at h
      cases hrest : seqOpt rest with
      | none => rw [hrest] at h; exact absurd h (by simp)
      | some rs =>
        rw [hrest] at h
        simp only [Option.map_some'] at h
        rw [← Option.some.inj h, List.map_cons]
        rw [ih rs hrest]

theorem seqOpt_none_of_mem {α : Type} : ∀ (l : List (Option α)), none ∈ l →
    seqOpt l = none := by
  intro l
  induction l with
  | nil => intro h; simp at h
  | cons o rest ih =>
    intro h
    rcases List.mem_cons.mp h with rfl | hmem
    · rfl
    · cases o with
      | none => rfl
      | some a =>
        show (seqOpt rest).map (a :: ·) = none
        rw [ih hmem]
        rfl

theorem seqOpt_mem_of_eq_none {α : Type} : ∀ (l : List (Option α)),
    seqOpt l = none → none ∈ l := by
  intro l
  induction l with
  | nil => intro h; exact absurd h (by rw [seqOpt]; simp)
  | cons o rest ih =>
    intro h
    cases o with
    | none => exact List.mem_cons_self none rest
    | some a =>
      rw [seqOpt] at h
      cases hrest : seqOpt rest with
      | none => exact List.mem_cons_of_mem _ (ih hrest)
      | some rs => rw [hrest] at h; exact absurd h (by simp)

theorem optPair_extract (o : Option (ℕ × ℕ)) :
    ((optPair o).1.bind fun a => (optPair o).2.map fun b => (a, b)) = o := by
  cases o with
  | none => rfl
  | some pr => rfl

theorem bandOf_some_chunk (height : ℕ) (hH : ((height : ℕ) : ℚ) ≠ 0) (v : ℚ)
    (p : ℕ × ℕ) (ps : List (ℕ × ℕ)) :
    bandOf height height v ((p :: ps).map fun pr =>
        ((some pr.1 : Option ℕ), (some pr.2 : Option ℕ))) =
      some
        (⟨(((p :: ps).map fun q => ((q.1 : ℚ) + (q.2 : ℚ)) / 2).sum) /
            (((p :: ps).length : ℕ) : ℚ),
          v + (((p :: ps).length : ℕ) : ℚ),
          (((ps.foldl (fun m q => max m q.2) p.2 : ℕ) : ℚ) -
            ((ps.foldl (fun m q => min m q.1) p.1 : ℕ) : ℚ)) / 2⟩,
        v + (((p :: ps).length : ℕ) : ℚ)) := by
  rw [bandOf]
  have hex : (((p :: ps).map fun pr =>
      ((some pr.1 : Option ℕ), (some pr.2 : Option ℕ))).map
        fun s => s.1.bind fun a => s.2.map fun b => (a, b)) = (p :: ps).map some := by
    rw [List.map_map]
    refine List.map_congr_left ?_
    intro pr _
    rfl
  rw [hex, seqOpt_map_some]
  simp only [div_mul_cancel₀ _ hH]

theorem bandsOf_all_some (height : ℕ) (hH : ((height : ℕ) : ℚ) ≠ 0) :
    ∀ (chunks : List (List (ℕ × ℕ))) (v : ℚ), (∀ chunk ∈ chunks, chunk ≠ []) →
      bandsOf height height v (chunks.map (List.map fun pr =>
          ((some pr.1 : Option ℕ), (some pr.2 : Option ℕ)))) =
        some (claimedBands v chunks) := by
  intro chunks
  induction chunks with
  | nil => intro v _; rfl
  | cons chunk cs ih =>
    intro v hne
    rcases chunk with _ | ⟨p, ps⟩
    · exact absurd rfl (hne [] (by simp))
    · rw [List.map_cons]
      rw [bandsOf, bandOf_some_chunk height hH v p ps, Option.some_bind]
      rw [ih (v + (((p :: ps).length : ℕ) : ℚ)) (fun d hd => hne d (by simp [hd]))]
      rfl

theorem bandOf_none_chunk (height segLen : ℕ) (v : ℚ)
    (chunk : List (Option (ℕ × ℕ))) (hn : none ∈ chunk) :
    bandOf height segLen v (chunk.map optPair) = none := by
  rw [bandOf]
  have hceq : ((chunk.map optPair).map fun s => s.1.bind fun a => s.2.map fun b => (a, b)) =
      chunk := by
    rw [List.map_map]
    have : ((fun s : Seg => s.1.bind fun a => s.2.map fun b => (a, b)) ∘ optPair) = id := by
      funext o
      exact optPair_extract o
    rw [this, List.map_id]
  rw [hceq, seqOpt_none_of_mem chunk hn]

theorem bandsOf_has_none (height segLen : ℕ) :
    ∀ (chunks : List (List (Option (ℕ × ℕ)))) (v : ℚ),
      (∃ chunk ∈ chunks, none ∈ chunk) →
      bandsOf height segLen v (chunks.map (List.map optPair)) = none := by
  intro chunks
  induction chunks with
  | nil =>
    rintro v ⟨c0, hc0, _⟩
    simp at hc0
  | cons chunk cs ih =>
    rintro v ⟨c0, hc0, hnone⟩
    rw [List.map_cons, bandsOf]
    rcases List.mem_cons.mp hc0 with rfl | hmem
    · rw [bandOf_none_chunk height segLen v c0 hnone]
      rfl
    · cases hb : bandOf height segLen v (chunk.map optPair) with
      | none => rfl
      | some pr =>
        show Option.map (fun rest => pr.1 :: rest)
          (bandsOf height segLen pr.2 (cs.map (List.map optPair))) = none
        rw [ih pr.2 ⟨c0, hmem, hnone⟩]
        rfl

/-- C8 (amended): the collider derivation groups the rows into bands of
`floor(H/10)` consecutive rows each (the last band possibly shorter, and no
bands at all when `floor(H/10) = 0`), and for each band produces a circle
whose center-x is the mean of the per-row midpoints of the opaque spans,
whose radius is half of (the band's maximum opaque-pixel x minus the band's
minimum opaque-pixel x), and whose center-y is the cumulative height of the
bands up to and including the current one; a row with no opaque pixel makes
the derivation fail. -/
theorem collidersOf_eq_claimed (height : ℕ) (cols : List (List Bool)) :
    collidersOf height cols = claimedColliders height cols := by
  rw [collidersOf, claimedColliders, segmentsOf_length]
  by_cases hk : height / 10 = 0
  · rw [if_pos hk, hk]
    rw [show chunkify 0 (segmentsOf height cols) = [] from rfl]
    rfl
  · rw [if_neg hk]
    have hpos : 0 < height := by omega
    have hH : ((height : ℕ) : ℚ) ≠ 0 := Nat.cast_ne_zero.mpr (by omega)
    rw [segmentsOf_eq]
    have hsegs : ((List.range height).map fun y => optPair (rowSpan cols y)) =
        ((List.range height).map (rowSpan cols)).map optPair := by
      rw [List.map_map]
      rfl
    rw [hsegs, chunkify_map]
    cases hseq : seqOpt ((List.range height).map (rowSpan cols)) with
    | none =>
      have hmemnone : none ∈ (List.range height).map (rowSpan cols) :=
        seqOpt_mem_of_eq_none _ hseq
      rw [← chunkify_flatten (height / 10) hk ((List.range height).map (rowSpan cols))] at hmemnone
      obtain ⟨chunk, hchunk, hnone⟩ := List.mem_flatten.mp hmemnone
      rw [bandsOf_has_none height height _ 0 ⟨chunk, hchunk, hnone⟩]
      rfl
    | some rows =>
      have hspans := seqOpt_eq_some _ rows hseq
      rw [hspans, chunkify_map]
      have hcomp : ((chunkify (height / 10) rows).map (List.map some)).map (List.map optPair) =
          (chunkify (height / 10) rows).map (List.map fun pr =>
            ((some pr.1 : Option ℕ), (some pr.2 : Option ℕ))) := by
        rw [List.map_map]
        refine List.map_congr_left ?_
        intro chunk _
        show (chunk.map some).map optPair = _
        rw [List.map_map]
        refine List.map_congr_left ?_
        intro pr _
        rfl
      rw [hcomp, bandsOf_all_some height hH _ 0 (chunkify_ne_nil (height / 10) hk rows)]
      rfl

end Flapy
